import Mathlib

/-!
Shallow embedding of `src/simtagger.py` (reconciliation of MSFS addon
manifests against a feed index, plus the volume-aware relocation decision).

Conventions of the embedding:
* Python strings are Lean `String`s; character-level work is done on
  `String.data : List Char`.  Character classes of the regexes
  (`[A-Za-z]`, `\d`, `\s`, `\w`) and `int()` / `str.strip()` / `str.upper()`
  are modelled over ASCII, which covers the data the program is written for.
* Python `int` is `Int` (arbitrary precision, like Python).
* JSON values are the inductive `JValue`; JSON numbers are modelled as `Int`
  (the manifest/feed fields the program consumes are strings, so number
  precision never matters to the claims).
* A Python exception that the source catches is represented by the
  corresponding `Option`/`Except` branch; an exception the source does NOT
  catch is an `Except.error` (for per-manifest processing) or a `none`
  result (for feed loading), aborting the enclosing computation exactly as
  the uncaught exception aborts the run.
* Filesystem facts (destination exists, same drive, directory size, free
  space, whether a write/move succeeds) are inputs — an oracle view of the
  world — since the code only branches on them.
-/

namespace Simtagger

/-! ## Character helpers (ASCII model of the Python character classes) -/

/-- ASCII whitespace, the ASCII part of Python's `str.strip()` / regex `\s`. -/
def isPyWs (c : Char) : Bool :=
  c = ' ' ∨ c = '\t' ∨ c = '\n' ∨ c = '\r' ∨ c = Char.ofNat 11 ∨ c = Char.ofNat 12

/-- Regex `\d` (ASCII). -/
def isAsciiDigit (c : Char) : Bool := '0' ≤ c ∧ c ≤ '9'

/-- Regex `[A-Za-z]`. -/
def isAsciiAlpha (c : Char) : Bool := ('A' ≤ c ∧ c ≤ 'Z') ∨ ('a' ≤ c ∧ c ≤ 'z')

/-- Regex `\w` (ASCII): letters, digits and underscore. -/
def isWordChar (c : Char) : Bool := isAsciiAlpha c ∨ isAsciiDigit c ∨ c = '_'

/-- `str.strip()` (ASCII whitespace model): drop leading and trailing whitespace. -/
def pyStrip (l : List Char) : List Char :=
  ((l.dropWhile isPyWs).reverse.dropWhile isPyWs).reverse

/-- `str.upper()` (ASCII model, via `Char.toUpper`). -/
def strUpper (s : String) : String := String.mk (s.data.map Char.toUpper)

/-- Decimal value of a digit list (most significant first). -/
def digitsVal (l : List Char) : Nat :=
  l.foldl (fun a c => 10 * a + (c.toNat - 48)) 0

/-- Digits-only parse: `some` iff the list is nonempty and all ASCII digits. -/
def digitsToNat (l : List Char) : Option Nat :=
  if !l.isEmpty && l.all isAsciiDigit then some (digitsVal l) else none

/-- Python `int(s)` on a string: optional surrounding whitespace, optional
single sign, then a nonempty digit run (ASCII model). -/
def pyParseInt (l : List Char) : Option Int :=
  match pyStrip l with
  | [] => none
  | c :: r =>
    if c = '+' then (digitsToNat r).map (fun n => (n : Int))
    else if c = '-' then (digitsToNat r).map (fun n => -(n : Int))
    else (digitsToNat (c :: r)).map (fun n => (n : Int))

/-- Python `s.split(sep)` for a one-character separator (no empty-part filtering;
`[] ↦ [[]]` just as `"".split(".") == [""]`). -/
def splitOnChar (sep : Char) : List Char → List (List Char)
  | [] => [[]]
  | c :: r =>
    let rest := splitOnChar sep r
    if c = sep then [] :: rest
    else
      match rest with
      | h :: t => (c :: h) :: t
      | [] => [[c]]

/-! ## `norm_version` and friends (source lines 199–221) -/

/-- The two `str.replace` calls of `norm_version`: `_` and `-` become `.`. -/
def sepToDot (c : Char) : Char := if c = '_' ∨ c = '-' then '.' else c

/-- `'v'`/`'V'`, stripped from the left by `lstrip("vV")`. -/
def isVChar (c : Char) : Bool := c = 'v' ∨ c = 'V'

/-- The nonempty separator-delimited components of a version string, after
`strip`, `lstrip("vV")` and separator replacement
(`parts = [p for p in v.split(".") if p]`). -/
def versionPartsCore (l : List Char) : List (List Char) :=
  (splitOnChar '.' (((pyStrip l).dropWhile isVChar).map sepToDot)).filter
    (fun p => !p.isEmpty)

def versionParts (v : String) : List (List Char) := versionPartsCore v.data

/-- `int()` applied to each part in order; `none` as soon as one fails,
like the `ValueError` escaping the list comprehension. -/
def parseParts : List (List Char) → Option (List Int)
  | [] => some []
  | p :: ps =>
    match pyParseInt p, parseParts ps with
    | some n, some ns => some (n :: ns)
    | _, _ => none

/-- `while len(nums) < 3: nums.append(0)` followed by `tuple(nums[:3])`. -/
def padTriple : List Int → Int × Int × Int
  | [] => (0, 0, 0)
  | [a] => (a, 0, 0)
  | [a, b] => (a, b, 0)
  | a :: b :: c :: _ => (a, b, c)

/-- `norm_version` (source lines 199–209). -/
def norm_version (v : String) : Option (Int × Int × Int) :=
  if v.data.isEmpty then none
  else
    match parseParts ((versionPartsCore v.data).take 3) with
    | none => none
    | some nums => some (padTriple nums)

/-- `version_equal` (source lines 211–213). -/
def version_equal (a b : String) : Bool :=
  match norm_version a, norm_version b with
  | some na, some nb => na = nb
  | _, _ => false

/-- `normalize_version_string` (source lines 215–217): dotted canonical form. -/
def normalize_version_string (v : String) : Option String :=
  (norm_version v).map
    (fun t => toString t.1 ++ "." ++ toString t.2.1 ++ "." ++ toString t.2.2)

/-! ## Regex engines

Each compiled pattern of the source (lines 193–197) is implemented as a
dedicated matcher, following Python's leftmost-match / greedy-with-backtracking
semantics for that concrete pattern. -/

/-- Four leading `[A-Za-z]` characters: `(group, last char, rest)`. -/
def take4AlphaR : List Char → Option (List Char × Char × List Char)
  | a :: b :: c :: d :: r =>
    if isAsciiAlpha a && isAsciiAlpha b && isAsciiAlpha c && isAsciiAlpha d then
      some ([a, b, c, d], d, r)
    else none
  | _ => none

/-- Zero-width `(?:\b|$)` after a word character: true at the end of input or
when the next character is not a word character. -/
def boundaryOk : List Char → Bool
  | [] => true
  | c :: _ => !isWordChar c

/-! ### `RE_VERSION_IN_TITLE = (?:^|[\s\-_])v?(\d+(?:[.\-_]\d+){0,3})(?:\b|$)` -/

/-- Separators accepted inside a version group: `[.\-_]`. -/
def isVerSep (c : Char) : Bool := c = '.' ∨ c = '-' ∨ c = '_'

/-- Characters accepted by the leading `[\s\-_]` alternative. -/
def isVerPre (c : Char) : Bool := isPyWs c ∨ c = '-' ∨ c = '_'

/-- Maximal leading digit run (greedy `\d+`; shorter runs always fail the
subsequent boundary, so the maximal munch is exact). -/
def takeDigits : List Char → List Char × List Char
  | [] => ([], [])
  | c :: r =>
    if isAsciiDigit c then
      let (d, rest) := takeDigits r
      (c :: d, rest)
    else ([], c :: r)

/-- Greedy `(?:[.\-_]\d+){0,3}` with backtracking, followed by `(?:\b|$)`:
`acc` is the group collected so far, the fuel is the remaining repetition
count.  Returns the full group and the rest of the input. -/
def verReps : Nat → List Char → List Char → Option (List Char × List Char)
  | 0, acc, rest => if boundaryOk rest then some (acc, rest) else none
  | k + 1, acc, rest =>
    match rest with
    | [] => some (acc, [])
    | c :: r =>
      if isVerSep c then
        let (ds, r') := takeDigits r
        if !ds.isEmpty then
          match verReps k (acc ++ c :: ds) r' with
          | some x => some x
          | none => if boundaryOk rest then some (acc, rest) else none
        else if boundaryOk rest then some (acc, rest) else none
      else if boundaryOk rest then some (acc, rest) else none

/-- The version group `(\d+(?:[.\-_]\d+){0,3})(?:\b|$)` at the current position. -/
def verCore (rest : List Char) : Option (List Char) :=
  let (ds, r) := takeDigits rest
  if ds.isEmpty then none else (verReps 3 ds r).map (fun x => x.1)

/-- `v?` (IGNORECASE) then the version group, with backtracking of `v?`. -/
def verAfterPos (rest : List Char) : Option (List Char) :=
  match rest with
  | [] => none
  | c :: r =>
    if isVChar c then
      match verCore r with
      | some g => some g
      | none => verCore rest
    else verCore rest

/-- Attempts of the `[\s\-_]`-consuming alternative at positions 1, 2, …
(each step consumes the candidate prefix character). -/
def verSearchGo : List Char → Option (List Char)
  | [] => none
  | c :: r =>
    if isVerPre c then
      match verAfterPos r with
      | some g => some g
      | none => verSearchGo r
    else verSearchGo r

/-- `RE_VERSION_IN_TITLE.search`: group 1 of the leftmost match.  The `^`
alternative is only available at position 0 and is tried before the
character-consuming alternative there. -/
def verSearch (l : List Char) : Option (List Char) :=
  match verAfterPos l with
  | some g => some g
  | none => verSearchGo l

/-- `extract_version_from_title` (source lines 219–221). -/
def extract_version_from_title (title : String) : Option String :=
  (verSearch title.data).bind (fun g => normalize_version_string (String.mk g))

/-! ### `RE_ICAO_IN_DESC = ICAO:\s*([A-Za-z]{4})` (IGNORECASE) -/

/-- Case-insensitive literal prefix match, returning the rest. -/
def matchCI : List Char → List Char → Option (List Char)
  | [], l => some l
  | _ :: _, [] => none
  | p :: ps, c :: cs => if c.toLower = p.toLower then matchCI ps cs else none

/-- `RE_ICAO_IN_DESC.search`: leftmost occurrence of the label followed by
(maximal) whitespace and four letters; the group. -/
def icaoDescSearch : List Char → Option (List Char)
  | [] => none
  | c :: r =>
    match matchCI ("ICAO:".data) (c :: r) with
    | some rest =>
      match take4AlphaR (rest.dropWhile isPyWs) with
      | some (g, _, _) => some g
      | none => icaoDescSearch r
    | none => icaoDescSearch r

/-! ### `RE_ANY_ICAO = \b([A-Za-z]{4})\b` (findall / finditer)

Matches of this pattern can never overlap (a word boundary cannot fall
between two letters), so the non-overlapping `findall` scan is equivalent to
the advance-by-one scan below, which threads whether the previous character
is a word character. -/

/-- All `\b([A-Za-z]{4})\b` matches, in order. `prevWord` says whether the
character before the current position is a word character (false at the
start of the string). -/
def anyIcaoScan (prevWord : Bool) : List Char → List (List Char)
  | [] => []
  | c :: r =>
    (if !prevWord then
      match take4AlphaR (c :: r) with
      | some (g, _, rest) => if boundaryOk rest then [g] else []
      | none => []
    else []) ++ anyIcaoScan (isWordChar c) r

/-- `manifest_icao_from_title` (source lines 241–246): first title token that
is four alphabetic characters, uppercased. -/
def manifest_icao_from_title (title : String) : Option String :=
  (((anyIcaoScan false title.data).filter
      (fun g => g.length = 4 && g.all isAsciiAlpha)).head?).map
    (fun g => String.mk (g.map Char.toUpper))

/-! ### `RE_FOLDER_ICAO = (?:^|[-_ ])([A-Za-z]{4})(?:$|[-_ ])` (search) -/

def isFolderDelim (c : Char) : Bool := c = '-' ∨ c = '_' ∨ c = ' '

/-- Trailing `(?:$|[-_ ])`. -/
def folderTailOk : List Char → Bool
  | [] => true
  | c :: _ => isFolderDelim c

/-- The folder group at the current position. -/
def folderCoreAt (l : List Char) : Option (List Char) :=
  match take4AlphaR l with
  | some (g, _, rest) => if folderTailOk rest then some g else none
  | none => none

/-- Positions 1, 2, … via the `[-_ ]`-consuming alternative. -/
def folderSearchGo : List Char → Option (List Char)
  | [] => none
  | c :: r =>
    if isFolderDelim c then
      match folderCoreAt r with
      | some g => some g
      | none => folderSearchGo r
    else folderSearchGo r

/-- `RE_FOLDER_ICAO.search`: group 1 of the leftmost match. -/
def folderIcaoSearch (l : List Char) : Option (List Char) :=
  match folderCoreAt l with
  | some g => some g
  | none => folderSearchGo l

/-- `folder_icao` (source lines 235–239). -/
def folder_icao (folderName : String) : Option String :=
  match folderIcaoSearch folderName.data with
  | none => none
  | some g =>
    if g.length = 4 && g.all isAsciiAlpha then some (String.mk (g.map Char.toUpper))
    else none

/-! ### `RE_SLUG_ICAO = (?:^|[-_/])([a-z]{4})(?:[-_/]|$)` (IGNORECASE, findall)

The trailing alternative CONSUMES a delimiter when one is present, so of two
delimiter-bounded tokens sharing a delimiter only the first is found — the
scan is non-overlapping and restarts after the consumed delimiter. -/

def isSlugDelim (c : Char) : Bool := c = '-' ∨ c = '_' ∨ c = '/'

/-- Trailing `(?:[-_/]|$)`: consumes one delimiter, or succeeds at the end. -/
def slugTail : List Char → Option (List Char)
  | [] => some []
  | c :: r => if isSlugDelim c then some r else none

/-- `([a-z]{4})(?:[-_/]|$)` (IGNORECASE) at the current position. -/
def slugGroupAt (l : List Char) : Option (List Char × List Char) :=
  match take4AlphaR l with
  | some (g, _, rest) => (slugTail rest).map (fun r => (g, r))
  | none => none

/-- The whole pattern at the current position; `canCaret` is true only at
position 0, where the zero-width `^` alternative is tried first. -/
def slugMatchAt (canCaret : Bool) (l : List Char) : Option (List Char × List Char) :=
  match (if canCaret then slugGroupAt l else none) with
  | some x => some x
  | none =>
    match l with
    | c :: r => if isSlugDelim c then slugGroupAt r else none
    | [] => none

/-- `findall` scan: on a match continue after its consumed end, otherwise
advance one character.  Every step consumes at least one character, so fuel
`l.length + 1` (as used by `slugTokens`) never runs out. -/
def slugScanF : Nat → Bool → List Char → List (List Char)
  | 0, _, _ => []
  | fuel + 1, canCaret, l =>
    match slugMatchAt canCaret l with
    | some (g, rest) => g :: slugScanF fuel false rest
    | none =>
      match l with
      | [] => []
      | _ :: r => slugScanF fuel false r

/-- `RE_SLUG_ICAO.findall`. -/
def slugTokens (l : List Char) : List (List Char) :=
  slugScanF (l.length + 1) true l

/-! ### `find_icaos_in_entry` (source lines 223–233) -/

/-- Code-point lexicographic `≤` on character lists (the order Python's
`sorted` and `<` apply to strings). -/
def lexLe : List Char → List Char → Bool
  | [], _ => true
  | _ :: _, [] => false
  | a :: as, b :: bs => if a < b then true else if b < a then false else lexLe as bs

/-- Strict code-point lexicographic order. -/
def lexLt : List Char → List Char → Bool
  | _, [] => false
  | [], _ :: _ => true
  | a :: as, b :: bs => if a < b then true else if b < a then false else lexLt as bs

def strLe (a b : String) : Bool := lexLe a.data b.data

def strLt (a b : String) : Bool := lexLt a.data b.data

/-- Insertion into a `≤`-sorted list of strings. -/
def insertSorted (x : String) : List String → List String
  | [] => [x]
  | y :: r => if strLe x y then x :: y :: r else y :: insertSorted x r

/-- Python `sorted` on strings (code-point lexicographic). -/
def sortStrings (l : List String) : List String := l.foldr insertSorted []

/-- `find_icaos_in_entry`: the labelled description token alone if present,
otherwise the sorted union of the title tokens and the slug tokens, all
uppercased (`list(sorted(t_found.union(slug_found)))`). -/
def find_icaos_in_entry (title desc page_url : String) : List String :=
  match icaoDescSearch desc.data with
  | some g => [String.mk (g.map Char.toUpper)]
  | none =>
    let tFound := (anyIcaoScan false title.data).map
      (fun g => String.mk (g.map Char.toUpper))
    let slugFound := (slugTokens page_url.data).map
      (fun g => String.mk (g.map Char.toUpper))
    sortStrings ((tFound ++ slugFound).eraseDups)

/-! ## JSON values -/

/-- JSON values as produced by `json.loads` (numbers modelled as `Int`;
objects as association lists, which `json.loads` yields with unique keys). -/
inductive JValue where
  | null : JValue
  | bool : Bool → JValue
  | num : Int → JValue
  | str : String → JValue
  | arr : List JValue → JValue
  | obj : List (String × JValue) → JValue

/-- Python truthiness of a JSON value (`None`, `False`, `0`, `""`, `[]`, `{}`
are falsy). -/
def jTruthy : JValue → Bool
  | .null => false
  | .bool b => b
  | .num n => n ≠ 0
  | .str s => s ≠ ""
  | .arr l => !l.isEmpty
  | .obj l => !l.isEmpty

/-- `(raw.get(k₁) or raw.get(k₂) or … or "")`: the first truthy value among
the listed keys, else `""`. -/
def orChain (raw : List (String × JValue)) : List String → JValue
  | [] => .str ""
  | k :: ks =>
    match raw.lookup k with
    | some v => if jTruthy v then v else orChain raw ks
    | none => orChain raw ks

/-- `(raw.get(k₁) or … or "").strip()`: `none` models the `AttributeError`
raised when the selected truthy value is not a string. -/
def fieldStr (raw : List (String × JValue)) (keys : List String) : Option String :=
  match orChain raw keys with
  | .str s => some (String.mk (pyStrip s.data))
  | _ => none

/-! ## Feed items and the feed index (source lines 251–293) -/

structure FeedItem where
  title : String
  description : String
  page_url : String
  tag : String
  version : Option String
  icaos : List String

/-- The `FeedItem.__init__` body; `none` models the `AttributeError` that a
truthy non-string field raises (uncaught, aborting the run). -/
def mkFeedItem (raw : List (String × JValue)) : Option FeedItem :=
  match fieldStr raw ["title"], fieldStr raw ["description"],
        fieldStr raw ["page_url", "link"], fieldStr raw ["tag", "category"] with
  | some title, some desc, some url, some tag =>
    some { title := title, description := desc, page_url := url, tag := tag,
           version := extract_version_from_title title,
           icaos := find_icaos_in_entry title desc url }
  | _, _, _, _ => none

/-- `FeedItem.is_msfs` (source lines 261–262): tag equals the configured
accepted tag, a version was derived, and at least one identifier was found. -/
def is_msfs (acceptedTag : String) (it : FeedItem) : Bool :=
  it.tag = acceptedTag && it.version.isSome && !it.icaos.isEmpty

/-- The feed index: `(ICAO, normalized version string) → tag`.  A function
value keeps the "exactly one tag per key" invariant structural. -/
abbrev FeedIdx := String × String → Option String

def emptyIdx : FeedIdx := fun _ => none

/-- `self.index[key] = tag`: overwrite any previous mapping for the key. -/
def updateIdx (f : FeedIdx) (key : String × String) (v : String) : FeedIdx :=
  fun k => if k = key then some v else f k

/-- `FeedIndex.add_item` (source lines 269–274). -/
def add_item (acceptedTag : String) (idx : FeedIdx) (it : FeedItem) : FeedIdx :=
  if is_msfs acceptedTag it then
    match it.version with
    | some ver => it.icaos.foldl (fun f icao => updateIdx f (strUpper icao, ver) it.tag) idx
    | none => idx
  else idx

/-- One feed source file: its name and the result of reading+parsing it
(`.error` = the exception caught at source line 283). -/
structure FeedSource where
  name : String
  parsed : Except String JValue

/-- `items = data.get("items") if isinstance(data, dict) else data`, then
`isinstance(items, list)` (source lines 285–286). -/
def parsedItems : JValue → Option (List JValue)
  | .obj fields =>
    match fields.lookup "items" with
    | some (.arr l) => some l
    | _ => none
  | .arr l => some l
  | _ => none

/-- One raw list element (source lines 288–292): non-objects are skipped; an
object whose `FeedItem` construction raises aborts the run (`none`). -/
def loadRaw (acceptedTag : String) (idx : FeedIdx) (raw : JValue) : Option FeedIdx :=
  match raw with
  | .obj fields =>
    match mkFeedItem fields with
    | none => none
    | some it => some (if is_msfs acceptedTag it then add_item acceptedTag idx it else idx)
  | _ => some idx

def loadItems (acceptedTag : String) (idx : FeedIdx) : List JValue → Option FeedIdx
  | [] => some idx
  | raw :: rest =>
    match loadRaw acceptedTag idx raw with
    | none => none
    | some idx' => loadItems acceptedTag idx' rest

/-- Processing of one source file (source lines 279–292). -/
def loadOne (acceptedTag : String) (idx : FeedIdx) (src : FeedSource) : Option FeedIdx :=
  match src.parsed with
  | .error _ => some idx
  | .ok data =>
    match parsedItems data with
    | none => some idx
    | some items => loadItems acceptedTag idx items

def insertFeed (s : FeedSource) : List FeedSource → List FeedSource
  | [] => [s]
  | y :: r => if strLe s.name y.name then s :: y :: r else y :: insertFeed s r

/-- `sorted(feed_root.glob("*.json"))`: sources in lexicographic name order. -/
def sortFeeds (l : List FeedSource) : List FeedSource := l.foldr insertFeed []

def loadSorted (acceptedTag : String) (idx : FeedIdx) : List FeedSource → Option FeedIdx
  | [] => some idx
  | s :: rest =>
    match loadOne acceptedTag idx s with
    | none => none
    | some idx' => loadSorted acceptedTag idx' rest

/-- `load_feed_index` (source lines 276–293): all sources in name order;
`none` models an uncaught exception while building a `FeedItem`. -/
def load_feed_index (acceptedTag : String) (sources : List FeedSource) : Option FeedIdx :=
  loadSorted acceptedTag emptyIdx (sortFeeds sources)

/-! ## Per-manifest reconciliation (source lines 326–387) -/

/-- The reconciliation outcomes of the main loop. -/
inductive ROutcome where
  | bad_json | no_version | no_match | noop | will_update | updated
deriving DecidableEq, Repr

/-- Uncaught Python exceptions of the per-manifest step. -/
inductive PyErr where
  | attrError   -- `.get`/`.strip` on a non-dict / non-string value
  | typeError   -- regex applied to a non-string value
  | writeError  -- `man_path.write_text` failure (source line 375, not wrapped)
deriving DecidableEq, Repr

/-- One scanned manifest: its folder name and the result of
`json.loads(man_path.read_text())` (`.error` = the exception caught at
source line 330). -/
structure Manifest where
  folderName : String
  parsed : Except String JValue

/-- Result of one loop iteration: the printed/counted outcome, the feed tag
(`after`) when the lookup matched, and the object written back to the file
when a rewrite happened. -/
structure StepResult where
  outcome : ROutcome
  resolvedTag : Option String := none
  written : Option (List (String × JValue)) := none

/-- `man_version = (manifest.get("package_version") or "").strip()`
(source line 337). -/
def manVersionStr (fields : List (String × JValue)) : Except PyErr String :=
  match fields.lookup "package_version" with
  | none => .ok ""
  | some v =>
    if jTruthy v then
      match v with
      | .str s => .ok (String.mk (pyStrip s.data))
      | _ => .error .attrError
    else .ok ""

/-- Identifier: folder pattern first, manifest title as fallback
(source lines 349–352).  `manifest.get("title","")` hands the raw value to
`manifest_icao_from_title`, whose `manifest_title or ""` tolerates falsy
non-strings but raises on truthy non-strings. -/
def manifestIcao (folderName : String) (fields : List (String × JValue)) :
    Except PyErr (Option String) :=
  match folder_icao folderName with
  | some i => .ok (some i)
  | none =>
    let v := (fields.lookup "title").getD (.str "")
    if jTruthy v then
      match v with
      | .str s => .ok (manifest_icao_from_title s)
      | _ => .error .typeError
    else .ok none

/-- Python `before != after` where `after` is a string: true unless `before`
is the same string. -/
def pyNeqStr (before : Option JValue) (after : String) : Bool :=
  match before with
  | some (.str s) => s ≠ after
  | _ => true

/-- `manifest["simType"] = after` on a dict (whose keys are unique, as
`json.loads` guarantees): replace the binding in place if the key exists,
else append it at the end. -/
def setField : List (String × JValue) → String → JValue → List (String × JValue)
  | [], k, v => [(k, v)]
  | (a, b) :: rest, k, v =>
    if a = k then (k, v) :: rest else (a, b) :: setField rest k v

/-- Step 5 of the loop (source lines 366–387): compare `simType` with the
feed tag and update / preview / no-op.  `writeOk` is the oracle for the
`write_text` of line 375; since that call is not wrapped in `try`, its
failure is an escaping exception (`.error .writeError`). -/
def applyTag (applyMode writeOk : Bool) (fields : List (String × JValue))
    (tag : String) : Except PyErr StepResult :=
  if applyMode then
    if pyNeqStr (fields.lookup "simType") tag then
      if writeOk then
        .ok { outcome := .updated, resolvedTag := some tag,
              written := some (setField fields "simType" (.str tag)) }
      else .error .writeError
    else .ok { outcome := .noop, resolvedTag := some tag }
  else
    if pyNeqStr (fields.lookup "simType") tag then
      .ok { outcome := .will_update, resolvedTag := some tag }
    else .ok { outcome := .noop, resolvedTag := some tag }

/-- Step 4: `tag = idx.index.get(key)`; `if not tag` → `NO_MATCH`
(source lines 359–364). -/
def lookupStep (applyMode writeOk : Bool) (idx : FeedIdx)
    (fields : List (String × JValue)) (verNorm icao : String) :
    Except PyErr StepResult :=
  match idx (strUpper icao, verNorm) with
  | none => .ok { outcome := .no_match }
  | some tag =>
    if tag = "" then .ok { outcome := .no_match }
    else applyTag applyMode writeOk fields tag

/-- Step 3: identifier derivation, `NO_MATCH` when absent
(source lines 349–357). -/
def icaoStep (applyMode writeOk : Bool) (idx : FeedIdx) (folderName : String)
    (fields : List (String × JValue)) (verNorm : String) :
    Except PyErr StepResult :=
  match manifestIcao folderName fields with
  | .error e => .error e
  | .ok none => .ok { outcome := .no_match }
  | .ok (some icao) => lookupStep applyMode writeOk idx fields verNorm icao

/-- Step 2: declared version, `NO_VERSION` when empty or unnormalizable
(source lines 337–346). -/
def versionStep (applyMode writeOk : Bool) (idx : FeedIdx) (folderName : String)
    (fields : List (String × JValue)) : Except PyErr StepResult :=
  match manVersionStr fields with
  | .error e => .error e
  | .ok manVersion =>
    if manVersion = "" then .ok { outcome := .no_version }
    else
      match normalize_version_string manVersion with
      | none => .ok { outcome := .no_version }
      | some verNorm => icaoStep applyMode writeOk idx folderName fields verNorm

/-- One iteration of the main reconciliation loop (source lines 326–387),
as the composition of the steps above: `BAD_JSON` on a parse failure, the
uncaught `AttributeError` on a manifest whose JSON is not an object. -/
def processManifest (applyMode : Bool) (idx : FeedIdx)
    (writeOk : Bool) (m : Manifest) : Except PyErr StepResult :=
  match m.parsed with
  | .error _ => .ok { outcome := .bad_json }
  | .ok (.obj fields) => versionStep applyMode writeOk idx m.folderName fields
  | .ok _ => .error .attrError

/-- The guard of source line 390 (`if after == ACCEPTED_TAG`): the relocation
block runs exactly when the resolved tag equals the accepted tag. -/
def relocGuard (acceptedTag : String) (r : StepResult) : Bool :=
  match r.resolvedTag with
  | some t => t = acceptedTag
  | none => false

/-- One loop iteration plus the resulting on-disk state of the manifest
(the rewritten object when a write happened, the old state otherwise). -/
def stepAndUpdate (applyMode : Bool) (idx : FeedIdx)
    (writeOk : Bool) (m : Manifest) : Except PyErr (ROutcome × Manifest) :=
  match processManifest applyMode idx writeOk m with
  | .error e => .error e
  | .ok r =>
    .ok (r.outcome,
      match r.written with
      | some w => { m with parsed := .ok (.obj w) }
      | none => m)

/-- The whole batch: manifests in scan order; an escaping exception aborts
the remainder of the batch, exactly as in the source. -/
def runBatch (applyMode : Bool) (idx : FeedIdx)
    (writeOk : Bool) : List Manifest → Except PyErr (List (ROutcome × Manifest))
  | [] => .ok []
  | m :: ms =>
    match stepAndUpdate applyMode idx writeOk m with
    | .error e => .error e
    | .ok r =>
      match runBatch applyMode idx writeOk ms with
      | .error e => .error e
      | .ok rs => .ok (r :: rs)

/-! ## Relocation decision (source lines 389–457) -/

inductive MoveOutcome where
  | skip_exist | will_skip_exist | no_space | will_no_space
  | moved | move_failed | will_move
deriving DecidableEq, Repr

/-- Oracle view of the filesystem for one relocation decision. -/
structure FsView where
  destExists : Bool            -- `dest_dir.exists()`
  sameDrive : Bool             -- `same_drive(src_dir, DEST_ROOT)`
  spaceQuery : Option (Nat × Nat)  -- `(directory_size_bytes(src), disk_usage.free)`; `none` = the query raised
  moveSucceeds : Bool          -- `mkdir` + `shutil.move` succeed

/-- The relocation decision of the main loop (source lines 398–457),
faithful to both the apply and the dry-run branch: the free-space preflight
(`size + margin > free`) runs only when the drives differ, a failing space
query falls through to the move (apply) or to `WILL_MOVE` (dry run). -/
def relocate (applyMode : Bool) (margin : Nat) (fs : FsView) : MoveOutcome :=
  if applyMode then
    if fs.destExists then .skip_exist
    else
      let blocked :=
        if !fs.sameDrive then
          match fs.spaceQuery with
          | some (size, free) => size + margin > free
          | none => false
        else false
      if blocked then .no_space
      else if fs.moveSucceeds then .moved
      else .move_failed
  else
    if fs.destExists then .will_skip_exist
    else if fs.sameDrive then .will_move
    else
      match fs.spaceQuery with
      | some (size, free) =>
        if size + margin > free then .will_no_space else .will_move
      | none => .will_move

/-! ## Spec-side definitions

These definitions follow the WORDS of the specification (sections 4.3, 4.2
and the identifier-extraction sentence of claim C5); they exist to be
compared with the source-derived definitions above. -/

/-- Spec §4.3/§6: the declared version string of a manifest — the stripped
`package_version` string, `""` when the field is absent (the spec's data
model gives the field as a string). -/
def declaredVersion (fields : List (String × JValue)) : String :=
  match fields.lookup "package_version" with
  | some (.str s) => String.mk (pyStrip s.data)
  | _ => ""

/-- Spec §4.2 for installed manifests: identifier from the folder name
first, manifest title as fallback. -/
def specIcao (folderName : String) (fields : List (String × JValue)) : Option String :=
  match folder_icao folderName with
  | some i => some i
  | none =>
    match fields.lookup "title" with
    | some (.str s) => manifest_icao_from_title s
    | _ => none

/-- Spec §4.3 step 5: "the manifest's current tag field is compared to the
feed's tag" — equal exactly when the field holds that very string. -/
def specTagEqual (fields : List (String × JValue)) (tag : String) : Bool :=
  match fields.lookup "simType" with
  | some (.str s) => s == tag
  | _ => false

/-- Spec §4.3 (claim C1): the reconciliation outcome decided by the five
rules in their stated order, stopping at the first applicable one.  Only
meaningful on the spec's data model (object manifests); the non-object
branch is arbitrary and unreachable under `wellFormed`. -/
def reconSpec (applyMode : Bool) (idx : FeedIdx) (m : Manifest) : ROutcome :=
  match m.parsed with
  | .error _ => .bad_json
  | .ok (.obj fields) =>
    match normalize_version_string (declaredVersion fields) with
    | none => .no_version
    | some verNorm =>
      match specIcao m.folderName fields with
      | none => .no_match
      | some icao =>
        match idx (strUpper icao, verNorm) with
        | none => .no_match
        | some tag =>
          if specTagEqual fields tag then .noop
          else if applyMode then .updated
          else .will_update
  | .ok _ => .bad_json

/-- A field value the spec's data model allows: absent, a string, or a falsy
value (which the code treats exactly like an absent field). -/
def strOrFalsy : Option JValue → Bool
  | none => true
  | some (.str _) => true
  | some v => !jTruthy v

/-- A manifest of the spec's data model (§6): if it parses, it parses to an
object whose `package_version` and `title` fields are strings (or absent or
falsy). -/
def wellFormed (m : Manifest) : Bool :=
  match m.parsed with
  | .error _ => true
  | .ok (.obj fields) =>
    strOrFalsy (fields.lookup "package_version") && strOrFalsy (fields.lookup "title")
  | .ok _ => false

/-! ### Declarative token sets (claim C5's wording) -/

/-- Word-boundary condition before position `i` (`pw` = whether the
character before position 0 would be a word character; `false` for a whole
string). -/
def prevOkAt (pw : Bool) (l : List Char) (i : Nat) : Bool :=
  match i with
  | 0 => !pw
  | j + 1 =>
    match l.get? j with
    | some c => !isWordChar c
    | none => true

/-- A 4-letter token at position `i` with a word boundary after it. -/
def tokenAt (l : List Char) (i : Nat) : Option (List Char) :=
  match l.drop i with
  | a :: b :: c :: d :: rest =>
    if isAsciiAlpha a && isAsciiAlpha b && isAsciiAlpha c && isAsciiAlpha d
        && boundaryOk rest then
      some [a, b, c, d]
    else none
  | _ => none

/-- All word-bounded 4-letter alphabetic tokens of a string, by position —
the declarative reading of "all 4-letter alphabetic tokens found in the
title". -/
def anyIcaoDecl (pw : Bool) (l : List Char) : List (List Char) :=
  (List.range l.length).filterMap
    (fun i => if prevOkAt pw l i then tokenAt l i else none)

/-- Delimiter condition before position `i` of a URL slug: start of string
or a `[-_/]` delimiter. -/
def slugPrevOkAt (l : List Char) (i : Nat) : Bool :=
  match i with
  | 0 => true
  | j + 1 =>
    match l.get? j with
    | some c => isSlugDelim c
    | none => true

/-- A 4-letter alphabetic token at position `i` followed by a delimiter or
the end of the string. -/
def slugTokenAt (l : List Char) (i : Nat) : Option (List Char) :=
  match l.drop i with
  | a :: b :: c :: d :: rest =>
    if isAsciiAlpha a && isAsciiAlpha b && isAsciiAlpha c && isAsciiAlpha d
        && (match rest with | [] => true | e :: _ => isSlugDelim e) then
      some [a, b, c, d]
    else none
  | _ => none

/-- ALL delimiter-bounded 4-letter tokens of a URL — the declarative reading
of claim C5's "all delimiter-bounded 4-letter tokens found in the URL slug"
(which the source's consuming scan does NOT collect in full). -/
def slugDeclTokens (l : List Char) : List (List Char) :=
  (List.range l.length).filterMap
    (fun i => if slugPrevOkAt l i then slugTokenAt l i else none)

/-! ### Write-trace view of the feed build (for the override proofs) -/

/-- The `(key, tag)` insertions `add_item` performs for one item, in order. -/
def itemWrites (acceptedTag : String) (it : FeedItem) : List ((String × String) × String) :=
  if is_msfs acceptedTag it then
    match it.version with
    | some ver => it.icaos.map (fun icao => ((strUpper icao, ver), it.tag))
    | none => []
  else []

/-- The insertions contributed by one raw list element. -/
def rawWrites (acceptedTag : String) (raw : JValue) : List ((String × String) × String) :=
  match raw with
  | .obj fields =>
    match mkFeedItem fields with
    | some it => itemWrites acceptedTag it
    | none => []
  | _ => []

/-- The insertions contributed by one source file, in order. -/
def srcWrites (acceptedTag : String) (src : FeedSource) : List ((String × String) × String) :=
  match src.parsed with
  | .error _ => []
  | .ok data =>
    match parsedItems data with
    | none => []
    | some items => (items.map (rawWrites acceptedTag)).flatten

/-- Replay a list of insertions onto an index. -/
def applyWrites (idx : FeedIdx) (ws : List ((String × String) × String)) : FeedIdx :=
  ws.foldl (fun f w => updateIdx f w.1 w.2) idx

/-- The value of the LAST insertion for a key, if any. -/
def lastVal (ws : List ((String × String) × String)) (k : String × String) : Option String :=
  (ws.reverse.find? (fun w => w.1 = k)).map (fun w => w.2)

/-! ## Version-string renderings (claims C2 and C3)

A rendering assembles a version string from numeric components: an optional
`v`/`V` prefix, a first component, then (separator, component) pairs with
free choice of separator.  This is the formal reading of "version strings
that differ only by separator choice, an optional leading v/V, or right
zero-padding". -/

/-- The `(separator, component)` pairs after the first component. -/
def renderTail : List (Char × List Char) → List Char
  | [] => []
  | p :: rest => p.1 :: p.2 ++ renderTail rest

/-- A rendered version string. -/
def renderVersion (pre c0 : List Char) (rest : List (Char × List Char)) : String :=
  String.mk (pre ++ c0 ++ renderTail rest)

/-- The component digit-strings of a rendering. -/
def compsOf (c0 : List Char) (rest : List (Char × List Char)) : List (List Char) :=
  c0 :: rest.map (fun p => p.2)

/-- A usable numeric component: nonempty, all ASCII digits. -/
def goodComp (c : List Char) : Bool := !c.isEmpty && c.all isAsciiDigit

/-- The numeric triple of a component list: first three values, right-padded
with zeros. -/
def valTriple (comps : List (List Char)) : Int × Int × Int :=
  padTriple ((comps.take 3).map (fun c => (digitsVal c : Int)))

/-! ## Concrete demonstration objects (used by the witnesses) -/

/-- A one-entry feed index: `(KLAX, 1.2.0) ↦ "MSFS 2020/2024"`. -/
def demoIdx : FeedIdx := updateIdx emptyIdx ("KLAX", "1.2.0") "MSFS 2020/2024"

def demoFields : List (String × JValue) :=
  [("package_version", .str "1.2.0"), ("simType", .null)]

/-- An installed manifest in folder `addon-klax-v1`. -/
def demoMan : Manifest := ⟨"addon-klax-v1", .ok (.obj demoFields)⟩

/-- A one-item feed source (for the witnesses): KLAX 1.0.0, accepted tag. -/
def demoFeedA : FeedSource :=
  ⟨"a.json", .ok (.arr [.obj [("title", .str "KLAX v1.0"),
    ("tag", .str "MSFS 2020/2024")]])⟩

/-- A second source with the same key, lexicographically later name. -/
def demoFeedB : FeedSource :=
  ⟨"b.json", .ok (.obj [("items", .arr [.obj [("title", .str "KLAX airport v1.0"),
    ("category", .str "MSFS 2020/2024")]])])⟩

/-- A one-source feed whose only entry matches `demoMan`. -/
def demoFeed : List FeedSource :=
  [⟨"feed.json", .ok (.arr [.obj [("title", .str "KLAX Airport v1.2.0"),
    ("description", .str ""), ("page_url", .str ""),
    ("tag", .str "MSFS 2020/2024")]])⟩]

/-! ## Claim C6: the free-space preflight -/

/-- C6: the free-space preflight runs only under the copy+delete strategy:
on the same volume the outcome ignores the space query entirely and is never
a space outcome; across volumes with the destination absent, strictly
exceeding free space yields `no_space` (apply) / `will_no_space` (dry run)
with no move attempted, while a sum equal to or below free space lets the
move proceed; the dry run performs the same `size + margin > free`
comparison. -/
theorem simtagger_C6 (margin : Nat) (fs : FsView) :
    (fs.sameDrive = true →
      (∀ mode q q', relocate mode margin { fs with spaceQuery := q } =
          relocate mode margin { fs with spaceQuery := q' }) ∧
      ∀ mode, relocate mode margin fs ≠ .no_space ∧
        relocate mode margin fs ≠ .will_no_space) ∧
    (∀ size free, fs.sameDrive = false → fs.destExists = false →
      fs.spaceQuery = some (size, free) →
      ((size + margin > free →
          relocate true margin fs = .no_space ∧
          relocate false margin fs = .will_no_space ∧
          ∀ mv, relocate true margin { fs with moveSucceeds := mv } = .no_space) ∧
        (size + margin ≤ free →
          relocate true margin fs =
            (if fs.moveSucceeds then .moved else .move_failed) ∧
          relocate false margin fs = .will_move))) := by
  obtain ⟨de, sd, sq, mv⟩ := fs
  constructor
  · intro hsd
    simp only at hsd
    subst hsd
    constructor
    · intro mode q q'
      cases mode <;> cases de <;> simp [relocate]
    · intro mode
      cases mode <;> cases de <;> cases mv <;> simp [relocate]
  · intro size free hsd hde hsq
    simp only at hsd hde hsq
    subst hsd; subst hde; subst hsq
    constructor
    · intro h
      refine ⟨?_, ?_, ?_⟩
      · simp [relocate, h]
      · simp [relocate, h]
      · intro mv'; simp [relocate, h]
    · intro h
      have h' : ¬ (size + margin > free) := not_lt.mpr h
      constructor
      · cases mv <;> simp [relocate, h']
      · simp [relocate, h']

/-- Witness for C6 at concrete inputs. -/
theorem simtagger_C6_witness :
    relocate true 250 ⟨false, false, some (1000, 1200), true⟩ = .no_space ∧
    relocate false 250 ⟨false, false, some (1000, 1200), true⟩ = .will_no_space ∧
    relocate true 200 ⟨false, false, some (1000, 1200), true⟩ = .moved ∧
    relocate false 200 ⟨false, false, some (1000, 1200), true⟩ = .will_move ∧
    relocate true 250 ⟨false, true, some (1000, 1200), true⟩ ≠ .no_space := by
  have h1 := (simtagger_C6 250 ⟨false, false, some (1000, 1200), true⟩).2 1000 1200
    rfl rfl rfl
  have h2 := (simtagger_C6 200 ⟨false, false, some (1000, 1200), true⟩).2 1000 1200
    rfl rfl rfl
  have h3 := ((simtagger_C6 250 ⟨false, true, some (1000, 1200), true⟩).1 rfl).2 true
  refine ⟨(h1.1 (by norm_num)).1, (h1.1 (by norm_num)).2.1, ?_, ?_, h3.1⟩
  · have := (h2.2 (by norm_num)).1
    simpa using this
  · exact (h2.2 (by norm_num)).2

theorem dropWhile_all_neg {α} (p : α → Bool) (l : List α)
    (h : ∀ a ∈ l, p a = false) : l.dropWhile p = l := by
  cases l with
  | nil => rfl
  | cons c r =>
    rw [List.dropWhile_cons, if_neg]
    simp [h c (by simp)]

theorem pyStrip_eq_self {l : List Char} (h : ∀ a ∈ l, isPyWs a = false) :
    pyStrip l = l := by
  unfold pyStrip
  rw [dropWhile_all_neg _ _ h, dropWhile_all_neg, List.reverse_reverse]
  intro a ha
  exact h a (by simpa using ha)

theorem digit_not_ws {c : Char} (h : isAsciiDigit c = true) : isPyWs c = false := by
  revert h
  unfold isAsciiDigit isPyWs
  intro h
  simp only [decide_eq_true_eq] at h
  rcases h with ⟨h1, h2⟩
  simp only [decide_eq_false_iff_not]
  rintro (rfl | rfl | rfl | rfl | rfl | rfl) <;> revert h1 h2 <;> decide

theorem digit_ne_plus {c : Char} (h : isAsciiDigit c = true) : c ≠ '+' := by
  rintro rfl; revert h; decide

theorem digit_ne_minus {c : Char} (h : isAsciiDigit c = true) : c ≠ '-' := by
  rintro rfl; revert h; decide

theorem digit_not_vchar {c : Char} (h : isAsciiDigit c = true) : isVChar c = false := by
  revert h
  unfold isAsciiDigit isVChar
  intro h
  simp only [decide_eq_true_eq] at h
  rcases h with ⟨h1, h2⟩
  simp only [decide_eq_false_iff_not]
  rintro (rfl | rfl) <;> revert h1 h2 <;> decide

theorem digit_sepToDot {c : Char} (h : isAsciiDigit c = true) : sepToDot c = c := by
  unfold sepToDot
  rw [if_neg]
  rintro (rfl | rfl) <;> revert h <;> decide

theorem digit_ne_dot {c : Char} (h : isAsciiDigit c = true) : c ≠ '.' := by
  rintro rfl; revert h; decide

theorem sep_not_ws {c : Char} (h : isVerSep c = true) : isPyWs c = false := by
  revert h
  unfold isVerSep isPyWs
  intro h
  simp only [decide_eq_true_eq] at h
  simp only [decide_eq_false_iff_not]
  rcases h with rfl | rfl | rfl <;> rintro (h | h | h | h | h | h) <;> revert h <;> decide

theorem sep_sepToDot {c : Char} (h : isVerSep c = true) : sepToDot c = '.' := by
  revert h
  unfold isVerSep sepToDot
  intro h
  simp only [decide_eq_true_eq] at h
  rcases h with rfl | rfl | rfl <;> simp

/-- `int()` on a pure digit string. -/
theorem pyParseInt_digits {c : List Char} (hne : c ≠ [])
    (hd : ∀ a ∈ c, isAsciiDigit a = true) :
    pyParseInt c = some ((digitsVal c : Int)) := by
  unfold pyParseInt
  rw [pyStrip_eq_self (fun a ha => digit_not_ws (hd a ha))]
  cases c with
  | nil => exact absurd rfl hne
  | cons a r =>
    have ha := hd a (by simp)
    show (if a = '+' then (digitsToNat r).map (fun n => (n : Int))
          else if a = '-' then (digitsToNat r).map (fun n => -(n : Int))
          else (digitsToNat (a :: r)).map (fun n => (n : Int))) =
        some ((digitsVal (a :: r) : Int))
    rw [if_neg (digit_ne_plus ha), if_neg (digit_ne_minus ha)]
    unfold digitsToNat
    rw [if_pos]
    · rfl
    · simp only [List.isEmpty_cons, Bool.not_false, Bool.true_and, List.all_eq_true]
      intro x hx
      exact hd x hx

theorem parseParts_all {ps : List (List Char)}
    (h : ∀ p ∈ ps, pyParseInt p = some ((digitsVal p : Int))) :
    parseParts ps = some (ps.map (fun p => (digitsVal p : Int))) := by
  induction ps with
  | nil => rfl
  | cons p rest ih =>
    unfold parseParts
    rw [h p (by simp), ih (fun q hq => h q (by simp [hq]))]
    rfl

/-- Splitting a separator-free chunk. -/
theorem splitOnChar_nosep {sep : Char} {x : List Char}
    (h : ∀ a ∈ x, a ≠ sep) : splitOnChar sep x = [x] := by
  induction x with
  | nil => rfl
  | cons a r ih =>
    unfold splitOnChar
    rw [ih (fun b hb => h b (by simp [hb]))]
    rw [if_neg (h a (by simp))]

/-- Peeling one separator-delimited chunk off the front. -/
theorem splitOnChar_chunk {sep : Char} {x t : List Char}
    (h : ∀ a ∈ x, a ≠ sep) :
    splitOnChar sep (x ++ sep :: t) = x :: splitOnChar sep t := by
  induction x with
  | nil => simp [splitOnChar]
  | cons a r ih =>
    rw [List.cons_append]
    simp only [splitOnChar]
    rw [ih (fun b hb => h b (by simp [hb])), if_neg (h a (by simp))]

theorem map_eq_self_of {α} (f : α → α) (l : List α) (h : ∀ a ∈ l, f a = a) :
    l.map f = l := by
  induction l with
  | nil => rfl
  | cons a r ih => simp only [List.map_cons, h a (by simp), ih (fun b hb => h b (by simp [hb]))]

theorem filter_eq_self_of {α} (p : α → Bool) (l : List α) (h : ∀ a ∈ l, p a = true) :
    l.filter p = l := by
  induction l with
  | nil => rfl
  | cons a r ih =>
    rw [List.filter_cons, if_pos (h a (by simp)), ih (fun b hb => h b (by simp [hb]))]

theorem renderTail_chars {rest : List (Char × List Char)}
    (hrest : ∀ p ∈ rest, isVerSep p.1 = true ∧ goodComp p.2 = true) :
    ∀ a ∈ renderTail rest, isVerSep a = true ∨ isAsciiDigit a = true := by
  induction rest with
  | nil => intro a ha; cases ha
  | cons p r ih =>
    intro a ha
    simp only [renderTail, List.mem_cons, List.mem_append] at ha
    rcases ha with (rfl | ha) | ha
    · exact Or.inl (hrest p (by simp)).1
    · have := (hrest p (by simp)).2
      simp only [goodComp, Bool.and_eq_true, List.all_eq_true] at this
      exact Or.inr (this.2 a ha)
    · exact ih (fun q hq => hrest q (by simp [hq])) a ha

theorem goodComp_digits {c : List Char} (h : goodComp c = true) :
    ∀ a ∈ c, isAsciiDigit a = true := by
  simp only [goodComp, Bool.and_eq_true, List.all_eq_true] at h
  exact h.2

theorem goodComp_ne_nil {c : List Char} (h : goodComp c = true) : c ≠ [] := by
  simp only [goodComp, Bool.and_eq_true] at h
  simpa using h.1

/-- After separator replacement, a rendering's tail uses only dots. -/
theorem map_sepToDot_renderTail {rest : List (Char × List Char)}
    (hrest : ∀ p ∈ rest, isVerSep p.1 = true ∧ goodComp p.2 = true) :
    (renderTail rest).map sepToDot = renderTail (rest.map (fun p => ('.', p.2))) := by
  induction rest with
  | nil => rfl
  | cons p r ih =>
    simp only [renderTail, List.map_cons, List.map_append]
    rw [sep_sepToDot (hrest p (by simp)).1,
      map_eq_self_of _ _ (fun a ha => digit_sepToDot (goodComp_digits (hrest p (by simp)).2 a ha)),
      ih (fun q hq => hrest q (by simp [hq]))]

/-- Splitting a dotted rendering recovers the components. -/
theorem splitOnChar_render {rest : List (Char × List Char)} :
    ∀ c0 : List Char, goodComp c0 = true →
    (∀ p ∈ rest, goodComp p.2 = true) →
    splitOnChar '.' (c0 ++ renderTail (rest.map (fun p => ('.', p.2)))) =
      c0 :: rest.map (fun p => p.2) := by
  induction rest with
  | nil =>
    intro c0 hc0 _
    simp only [List.map_nil, renderTail, List.append_nil]
    exact splitOnChar_nosep (fun a ha => digit_ne_dot (goodComp_digits hc0 a ha))
  | cons p r ih =>
    intro c0 hc0 hrest
    simp only [List.map_cons, renderTail, List.cons_append]
    have : c0 ++ '.' :: (p.2 ++ renderTail (r.map (fun q => ('.', q.2)))) =
        c0 ++ '.' :: p.2 ++ renderTail (r.map (fun q => ('.', q.2))) := by simp
    rw [splitOnChar_chunk (fun a ha => digit_ne_dot (goodComp_digits hc0 a ha)),
      ih p.2 (hrest p (by simp)) (fun q hq => hrest q (by simp [hq]))]

/-- The components of a well-formed rendering, as computed by `norm_version`'s
pipeline. -/
theorem versionPartsCore_render (pre c0 : List Char) (rest : List (Char × List Char))
    (hpre : pre = [] ∨ pre = ['v'] ∨ pre = ['V'])
    (hc0 : goodComp c0 = true)
    (hrest : ∀ p ∈ rest, isVerSep p.1 = true ∧ goodComp p.2 = true) :
    versionPartsCore (pre ++ c0 ++ renderTail rest) = c0 :: rest.map (fun p => p.2) := by
  have hnw : ∀ a ∈ pre ++ c0 ++ renderTail rest, isPyWs a = false := by
    intro a ha
    simp only [List.append_assoc, List.mem_append] at ha
    rcases ha with ha | ha | ha
    · rcases hpre with rfl | rfl | rfl <;> simp at ha <;> subst ha <;> decide
    · exact digit_not_ws (goodComp_digits hc0 a ha)
    · rcases renderTail_chars hrest a ha with h | h
      · exact sep_not_ws h
      · exact digit_not_ws h
  unfold versionPartsCore
  rw [pyStrip_eq_self hnw]
  have hdrop : (pre ++ c0 ++ renderTail rest).dropWhile isVChar = c0 ++ renderTail rest := by
    obtain ⟨d, c0', rfl⟩ : ∃ d c0', c0 = d :: c0' := by
      cases c0 with
      | nil => exact absurd rfl (goodComp_ne_nil hc0)
      | cons d c0' => exact ⟨d, c0', rfl⟩
    have hd : isVChar d = false :=
      digit_not_vchar (goodComp_digits hc0 d (by simp))
    have hv : isVChar 'v' = true := by decide
    have hV : isVChar 'V' = true := by decide
    rcases hpre with rfl | rfl | rfl
    · simp only [List.nil_append, List.cons_append, List.dropWhile_cons, hd]
      simp
    · simp only [List.cons_append, List.nil_append, List.dropWhile_cons, hd, hv, if_true]
      simp
    · simp only [List.cons_append, List.nil_append, List.dropWhile_cons, hd, hV, if_true]
      simp
  rw [hdrop]
  rw [List.map_append,
    map_eq_self_of _ _ (fun a ha => digit_sepToDot (goodComp_digits hc0 a ha)),
    map_sepToDot_renderTail hrest,
    splitOnChar_render c0 hc0 (fun p hp => (hrest p hp).2)]
  apply filter_eq_self_of
  intro a ha
  simp only [List.mem_cons, List.mem_map] at ha
  rcases ha with rfl | ⟨p, hp, rfl⟩
  · simpa using goodComp_ne_nil hc0
  · simpa using goodComp_ne_nil (hrest p hp).2

/-- A well-formed rendering normalizes to the numeric triple of its
components. -/
theorem norm_version_render (pre c0 : List Char) (rest : List (Char × List Char))
    (hpre : pre = [] ∨ pre = ['v'] ∨ pre = ['V'])
    (hc0 : goodComp c0 = true)
    (hrest : ∀ p ∈ rest, isVerSep p.1 = true ∧ goodComp p.2 = true) :
    norm_version (renderVersion pre c0 rest) = some (valTriple (compsOf c0 rest)) := by
  unfold norm_version renderVersion
  have hne : ((pre ++ c0 ++ renderTail rest).isEmpty) = false := by
    obtain ⟨d, c0', rfl⟩ : ∃ d c0', c0 = d :: c0' := by
      cases c0 with
      | nil => exact absurd rfl (goodComp_ne_nil hc0)
      | cons d c0' => exact ⟨d, c0', rfl⟩
    rcases hpre with rfl | rfl | rfl <;> simp
  simp only [hne, Bool.false_eq_true, if_false]
  rw [show versionPartsCore (String.mk (pre ++ c0 ++ renderTail rest)).data =
      versionPartsCore (pre ++ c0 ++ renderTail rest) from rfl]
  rw [versionPartsCore_render pre c0 rest hpre hc0 hrest]
  have hall : ∀ p ∈ (c0 :: rest.map (fun p => p.2)).take 3,
      pyParseInt p = some ((digitsVal p : Int)) := by
    intro p hp
    have hp' := List.take_subset 3 _ hp
    simp only [List.mem_cons, List.mem_map] at hp'
    rcases hp' with rfl | ⟨q, hq, rfl⟩
    · exact pyParseInt_digits (goodComp_ne_nil hc0) (goodComp_digits hc0)
    · exact pyParseInt_digits (goodComp_ne_nil (hrest q hq).2)
        (goodComp_digits (hrest q hq).2)
  rw [parseParts_all hall]
  rfl

theorem string_empty_iff (v : String) : v = "" ↔ v.data.isEmpty = true := by
  cases v with
  | mk l => cases l <;> simp [String.ext_iff]

/-- `norm_version` written with `versionParts` exposed. -/
theorem norm_version_eq (v : String) :
    norm_version v =
      if v.data.isEmpty then none
      else
        match parseParts ((versionParts v).take 3) with
        | none => none
        | some nums => some (padTriple nums) := rfl

theorem parseParts_eq_none_iff {ps : List (List Char)} :
    parseParts ps = none ↔ ∃ p ∈ ps, pyParseInt p = none := by
  induction ps with
  | nil => simp [parseParts]
  | cons p rest ih =>
    unfold parseParts
    rcases hp : pyParseInt p with _ | n
    · constructor
      · intro _; exact ⟨p, by simp, hp⟩
      · intro _; rfl
    · rcases hr : parseParts rest with _ | ns
      · constructor
        · intro _
          obtain ⟨q, hq, hqn⟩ := ih.mp hr
          exact ⟨q, by simp [hq], hqn⟩
        · intro _; rfl
      · constructor
        · intro h; exact absurd h (by simp)
        · rintro ⟨q, hq, hqn⟩
          rcases List.mem_cons.mp hq with rfl | hq2
          · rw [hp] at hqn; exact Option.noConfusion hqn
          · have h0 : parseParts rest = none := ih.mpr ⟨q, hq2, hqn⟩
            rw [hr] at h0; exact Option.noConfusion h0

/-- C2 (claim): version strings that differ only by separator choice
(`.`/`_`/`-`), an optional leading `v`/`V`, or right zero-padding normalize
to identical triples: any rendering of numeric components normalizes to the
triple of its component values (so two renderings with equal value triples —
in particular ones padded with extra zero components — are `version_equal`);
concretely `"1.2"`, `"v1.2.0"` and `"1_2_0"` all normalize to `(1, 2, 0)`
and compare equal. -/
theorem simtagger_C2 :
    (∀ (pre c0 : List Char) (rest : List (Char × List Char)),
        (pre = [] ∨ pre = ['v'] ∨ pre = ['V']) →
        goodComp c0 = true →
        (∀ p ∈ rest, isVerSep p.1 = true ∧ goodComp p.2 = true) →
        norm_version (renderVersion pre c0 rest) = some (valTriple (compsOf c0 rest))) ∧
    (∀ (pre c0 : List Char) (rest : List (Char × List Char))
        (pre' c0' : List Char) (rest' : List (Char × List Char)),
        (pre = [] ∨ pre = ['v'] ∨ pre = ['V']) →
        goodComp c0 = true →
        (∀ p ∈ rest, isVerSep p.1 = true ∧ goodComp p.2 = true) →
        (pre' = [] ∨ pre' = ['v'] ∨ pre' = ['V']) →
        goodComp c0' = true →
        (∀ p ∈ rest', isVerSep p.1 = true ∧ goodComp p.2 = true) →
        valTriple (compsOf c0 rest) = valTriple (compsOf c0' rest') →
        version_equal (renderVersion pre c0 rest) (renderVersion pre' c0' rest') = true) ∧
    norm_version "1.2" = some (1, 2, 0) ∧
    norm_version "v1.2.0" = some (1, 2, 0) ∧
    norm_version "1_2_0" = some (1, 2, 0) ∧
    version_equal "1.2" "v1.2.0" = true ∧
    version_equal "v1.2.0" "1_2_0" = true ∧
    version_equal "1.2" "1_2_0" = true := by
  refine ⟨norm_version_render, ?_, by decide, by decide, by decide, by decide,
    by decide, by decide⟩
  intro pre c0 rest pre' c0' rest' h1 h2 h3 h4 h5 h6 heq
  unfold version_equal
  rw [norm_version_render pre c0 rest h1 h2 h3,
    norm_version_render pre' c0' rest' h4 h5 h6, heq]
  simp

/-- Witness for C2: `"v1.2_0"` as a rendering, and `"1.2"` vs `"v1_2-0"`. -/
theorem simtagger_C2_witness :
    norm_version (renderVersion ['v'] ['1'] [('.', ['2']), ('_', ['0'])]) =
      some (valTriple (compsOf ['1'] [('.', ['2']), ('_', ['0'])])) ∧
    version_equal (renderVersion [] ['1'] [('.', ['2'])])
      (renderVersion ['v'] ['1'] [('_', ['2']), ('-', ['0'])]) = true := by
  constructor
  · exact simtagger_C2.1 ['v'] ['1'] [('.', ['2']), ('_', ['0'])]
      (by decide) (by decide) (by decide)
  · exact simtagger_C2.2.1 [] ['1'] [('.', ['2'])] ['v'] ['1'] [('_', ['2']), ('-', ['0'])]
      (by decide) (by decide) (by decide) (by decide) (by decide) (by decide) (by decide)

/-- C3 (claim): `norm_version` returns `none` iff the input is empty or one
of the first three components fails integer parsing; components beyond the
third are ignored (two nonempty inputs with the same first three components
normalize identically); fewer than three parsed components are zero-padded
on the right. -/
theorem simtagger_C3 (v : String) :
    (norm_version v = none ↔
      v = "" ∨ ∃ p ∈ (versionParts v).take 3, pyParseInt p = none) ∧
    (v ≠ "" → ∀ w : String, w ≠ "" →
      (versionParts v).take 3 = (versionParts w).take 3 →
      norm_version v = norm_version w) ∧
    (∀ a : Int, padTriple [a] = (a, 0, 0)) ∧
    (∀ a b : Int, padTriple [a, b] = (a, b, 0)) ∧
    (∀ a b c : Int, padTriple [a, b, c] = (a, b, c)) := by
  refine ⟨?_, ?_, fun a => rfl, fun a b => rfl, fun a b c => rfl⟩
  · rw [norm_version_eq]
    constructor
    · intro h
      by_cases he : v.data.isEmpty
      · exact Or.inl ((string_empty_iff v).mpr he)
      · simp only [he, Bool.false_eq_true, if_false] at h
        right
        rcases hp : parseParts ((versionParts v).take 3) with _ | ns
        · exact parseParts_eq_none_iff.mp hp
        · rw [hp] at h; cases h
    · intro h
      rcases h with h | h
      · rw [if_pos ((string_empty_iff v).mp h)]
      · by_cases he : v.data.isEmpty
        · rw [if_pos he]
        · simp only [he, Bool.false_eq_true, if_false]
          rw [parseParts_eq_none_iff.mpr h]
  · intro hv w hw heq
    rw [norm_version_eq v, norm_version_eq w,
      if_neg (fun he => hv ((string_empty_iff v).mpr he)),
      if_neg (fun he => hw ((string_empty_iff w).mpr he)), heq]

/-- Witness for C3: truncation beyond the third component, and a failing
second component. -/
theorem simtagger_C3_witness :
    norm_version "1.2.3.4.XYZ" = norm_version "1.2.3" ∧
    norm_version "1.a" = none := by
  constructor
  · exact (simtagger_C3 "1.2.3.4.XYZ").2.1 (by decide) "1.2.3" (by decide) (by decide)
  · exact (simtagger_C3 "1.a").1.mpr (Or.inr ⟨['a'], by decide, by decide⟩)

/-! ## Dictionary update lemmas -/

theorem lookup_cons_kv (a k : String) (b : JValue) (es : List (String × JValue)) :
    ((k, b) :: es).lookup a = if a = k then some b else es.lookup a := by
  show (match a == k with | true => some b | false => es.lookup a) = _
  by_cases h : a = k
  · rw [if_pos h, show (a == k) = true from beq_iff_eq.mpr h]
  · rw [if_neg h, show (a == k) = false from beq_false_of_ne h]

/-- `d[k] = v` changes exactly the binding of `k`. -/
theorem lookup_setField (fields : List (String × JValue)) (k k' : String) (v : JValue) :
    (setField fields k v).lookup k' = if k' = k then some v else fields.lookup k' := by
  induction fields with
  | nil =>
    show ([(k, v)] : List (String × JValue)).lookup k' = _
    rw [lookup_cons_kv]
  | cons kv rest ih =>
    obtain ⟨a, b⟩ := kv
    show (if a = k then (k, v) :: rest else (a, b) :: setField rest k v).lookup k' = _
    by_cases hak : a = k
    · rw [if_pos hak, lookup_cons_kv, lookup_cons_kv]
      by_cases hk : k' = k
      · rw [if_pos hk, if_pos hk]
      · rw [if_neg hk, if_neg hk, if_neg (fun hh => hk (hh.trans hak))]
    · rw [if_neg hak, lookup_cons_kv, lookup_cons_kv]
      by_cases hk : k' = a
      · rw [if_pos hk, if_pos hk, if_neg (fun hh => hak (hk ▸ hh))]
      · rw [if_neg hk, if_neg hk, ih]

/-! ## Inversion and evaluation of the per-manifest step -/

theorem applyTag_ok {mode wOk : Bool} {fields : List (String × JValue)} {tag : String}
    {r : StepResult} (h : applyTag mode wOk fields tag = .ok r) :
    r.resolvedTag = some tag ∧
    (r.outcome = .noop ∨ r.outcome = .will_update ∨ r.outcome = .updated) ∧
    (r.outcome = .noop ↔ pyNeqStr (fields.lookup "simType") tag = false) ∧
    (r.outcome = .updated →
      mode = true ∧ wOk = true ∧
      r.written = some (setField fields "simType" (.str tag))) ∧
    (r.outcome = .will_update → mode = false) ∧
    (r.outcome ≠ .updated → r.written = none) := by
  unfold applyTag at h
  by_cases hm : mode = true
  · rw [if_pos hm] at h
    by_cases hne : pyNeqStr (fields.lookup "simType") tag = true
    · rw [if_pos hne] at h
      by_cases hw : wOk = true
      · rw [if_pos hw] at h
        cases h
        refine ⟨rfl, by simp, by simp [hne], fun _ => ⟨hm, hw, rfl⟩, by simp, by simp⟩
      · rw [if_neg hw] at h; cases h
    · rw [if_neg hne] at h
      cases h
      refine ⟨rfl, by simp, ?_, by simp, by simp, by simp⟩
      simpa using hne
  · rw [if_neg hm] at h
    by_cases hne : pyNeqStr (fields.lookup "simType") tag = true
    · rw [if_pos hne] at h
      cases h
      refine ⟨rfl, by simp, by simp [hne], by simp, fun _ => by simpa using hm, by simp⟩
    · rw [if_neg hne] at h
      cases h
      refine ⟨rfl, by simp, ?_, by simp, by simp, by simp⟩
      simpa using hne

/-- A matched outcome can only arise from a successful chain through all
five steps; it pins down every intermediate value. -/
theorem process_matched_inv {mode : Bool} {idx : FeedIdx} {wOk : Bool}
    {m : Manifest} {r : StepResult}
    (h : processManifest mode idx wOk m = .ok r)
    (ho : r.outcome = .noop ∨ r.outcome = .will_update ∨ r.outcome = .updated) :
    ∃ fields manVersion verNorm icao tag,
      m.parsed = .ok (.obj fields) ∧
      manVersionStr fields = .ok manVersion ∧
      manVersion ≠ "" ∧
      normalize_version_string manVersion = some verNorm ∧
      manifestIcao m.folderName fields = .ok (some icao) ∧
      idx (strUpper icao, verNorm) = some tag ∧
      tag ≠ "" ∧
      applyTag mode wOk fields tag = .ok r := by
  unfold processManifest at h
  split at h
  · cases h; simp at ho
  · rename_i fields heq
    refine ⟨fields, ?_⟩
    unfold versionStep at h
    split at h
    · cases h
    · rename_i mv hmv
      split at h
      · cases h; simp at ho
      · rename_i hemp
        split at h
        · cases h; simp at ho
        · rename_i verNorm hnv
          unfold icaoStep at h
          split at h
          · cases h
          · cases h; simp at ho
          · rename_i icao hic
            unfold lookupStep at h
            split at h
            · cases h; simp at ho
            · rename_i tag hidx
              split at h
              · cases h; simp at ho
              · rename_i htag
                exact ⟨mv, verNorm, icao, tag, heq, hmv, hemp, hnv, hic, hidx, htag, h⟩
  · cases h

/-- An object manifest enters the version step. -/
theorem processManifest_obj {mode : Bool} {idx : FeedIdx} {wOk : Bool}
    {m : Manifest} {fields : List (String × JValue)}
    (hm : m.parsed = .ok (.obj fields)) :
    processManifest mode idx wOk m = versionStep mode wOk idx m.folderName fields := by
  unfold processManifest
  rw [hm]

theorem versionStep_eval {mode wOk : Bool} {idx : FeedIdx} {fn : String}
    {fields : List (String × JValue)} {mv verNorm : String}
    (h1 : manVersionStr fields = .ok mv) (h2 : mv ≠ "")
    (h3 : normalize_version_string mv = some verNorm) :
    versionStep mode wOk idx fn fields = icaoStep mode wOk idx fn fields verNorm := by
  unfold versionStep
  split
  · rename_i e he; rw [h1] at he; cases he
  · rename_i mv2 hmv2
    rw [h1] at hmv2
    cases hmv2
    rw [if_neg h2, h3]

theorem icaoStep_eval {mode wOk : Bool} {idx : FeedIdx} {fn : String}
    {fields : List (String × JValue)} {verNorm icao : String}
    (hic : manifestIcao fn fields = .ok (some icao)) :
    icaoStep mode wOk idx fn fields verNorm =
      lookupStep mode wOk idx fields verNorm icao := by
  unfold icaoStep
  split
  · rename_i e he; rw [hic] at he; cases he
  · rename_i he; rw [hic] at he; simp at he
  · rename_i icao2 hic2
    rw [hic] at hic2
    cases hic2
    rfl

theorem lookupStep_eval {mode wOk : Bool} {idx : FeedIdx}
    {fields : List (String × JValue)} {verNorm icao tag : String}
    (hidx : idx (strUpper icao, verNorm) = some tag) (htag : tag ≠ "") :
    lookupStep mode wOk idx fields verNorm icao = applyTag mode wOk fields tag := by
  unfold lookupStep
  split
  · rename_i he; rw [hidx] at he; cases he
  · rename_i tag2 hidx2
    rw [hidx] at hidx2
    cases hidx2
    rw [if_neg htag]

/-- Forward evaluation of the step once the stage values are known. -/
theorem process_eval_matched {mode : Bool} {idx : FeedIdx} {wOk : Bool}
    {m : Manifest} {fields : List (String × JValue)}
    {manVersion verNorm icao tag : String}
    (hm : m.parsed = .ok (.obj fields))
    (h1 : manVersionStr fields = .ok manVersion)
    (h2 : manVersion ≠ "")
    (h3 : normalize_version_string manVersion = some verNorm)
    (h4 : manifestIcao m.folderName fields = .ok (some icao))
    (h5 : idx (strUpper icao, verNorm) = some tag)
    (h6 : tag ≠ "") :
    processManifest mode idx wOk m = applyTag mode wOk fields tag := by
  rw [processManifest_obj hm, versionStep_eval h1 h2 h3, icaoStep_eval h4,
    lookupStep_eval h5 h6]

theorem pyNeqStr_iff (b : Option JValue) (tag : String) :
    pyNeqStr b tag = true ↔ b ≠ some (.str tag) := by
  cases b with
  | none => simp [pyNeqStr]
  | some v =>
    cases v with
    | str s =>
      simp only [pyNeqStr, ne_eq, decide_eq_true_eq]
      constructor
      · intro hs he
        injection he with he2
        cases he2
        exact hs rfl
      · intro he hs
        subst hs
        exact he rfl
    | null => simp [pyNeqStr]
    | bool c => simp [pyNeqStr]
    | num n => simp [pyNeqStr]
    | arr l => simp [pyNeqStr]
    | obj l => simp [pyNeqStr]

/-- Structure of a successful step: either no match was resolved (and then
nothing was written), or the step reached the tag-comparison stage. -/
theorem process_shape {mode : Bool} {idx : FeedIdx} {wOk : Bool}
    {m : Manifest} {r : StepResult}
    (h : processManifest mode idx wOk m = .ok r) :
    (r.resolvedTag = none ∧ r.written = none) ∨
    (∃ fields tag, m.parsed = .ok (.obj fields) ∧ r.resolvedTag = some tag ∧
      applyTag mode wOk fields tag = .ok r) := by
  unfold processManifest at h
  split at h
  · cases h; exact Or.inl ⟨rfl, rfl⟩
  · rename_i fields heq
    unfold versionStep at h
    split at h
    · cases h
    · rename_i mv hmv
      split at h
      · cases h; exact Or.inl ⟨rfl, rfl⟩
      · rename_i hemp
        split at h
        · cases h; exact Or.inl ⟨rfl, rfl⟩
        · rename_i verNorm hnv
          unfold icaoStep at h
          split at h
          · cases h
          · cases h; exact Or.inl ⟨rfl, rfl⟩
          · rename_i icao hic
            unfold lookupStep at h
            split at h
            · cases h; exact Or.inl ⟨rfl, rfl⟩
            · rename_i tag hidx
              split at h
              · cases h; exact Or.inl ⟨rfl, rfl⟩
              · exact Or.inr ⟨fields, tag, heq, (applyTag_ok h).1, h⟩
  · cases h

/-- C8 (claim): in apply mode the manifest file is rewritten iff the current
`simType` field differs from the feed's tag; on a rewrite the `simType`
binding holds the feed tag and every other field's value is preserved
verbatim; an unmatched manifest is never rewritten. -/
theorem simtagger_C8 {idx : FeedIdx} {m : Manifest} {r : StepResult}
    {fields : List (String × JValue)}
    (h : processManifest true idx true m = .ok r)
    (hm : m.parsed = .ok (.obj fields)) :
    (∀ tag, r.resolvedTag = some tag →
      ((r.written.isSome ↔ fields.lookup "simType" ≠ some (.str tag)) ∧
       ∀ w, r.written = some w →
         w.lookup "simType" = some (.str tag) ∧
         ∀ k, k ≠ "simType" → w.lookup k = fields.lookup k)) ∧
    (r.resolvedTag = none → r.written = none) := by
  rcases process_shape h with ⟨hrt, hw⟩ | ⟨fields2, tag2, hm2, hrt, hat⟩
  · constructor
    · intro tag htag
      rw [hrt] at htag
      cases htag
    · intro _
      exact hw
  · rw [hm] at hm2
    injection hm2 with hm3
    injection hm3 with hm4
    subst hm4
    constructor
    · intro tag htag
      rw [hrt] at htag
      injection htag with htag2
      subst htag2
      obtain ⟨_, houts, hnoop, hupd, hwu, hnw⟩ := applyTag_ok hat
      have hout2 : r.outcome = .noop ∨ r.outcome = .updated := by
        rcases houts with h1 | h1 | h1
        · exact Or.inl h1
        · cases hwu h1
        · exact Or.inr h1
      constructor
      · constructor
        · intro hws
          obtain ⟨w, hwv⟩ := Option.isSome_iff_exists.mp hws
          have hne : r.outcome ≠ .noop := by
            intro hn
            rw [hnw (by rw [hn]; intro hh; cases hh)] at hwv
            cases hwv
          have hpt : pyNeqStr (fields.lookup "simType") tag2 = true := by
            rcases hp : pyNeqStr (fields.lookup "simType") tag2 with _ | _
            · exact absurd (hnoop.mpr hp) hne
            · rfl
          exact (pyNeqStr_iff _ _).mp hpt
        · intro hne
          have hp : pyNeqStr (fields.lookup "simType") tag2 = true :=
            (pyNeqStr_iff _ _).mpr hne
          have hnn : r.outcome ≠ .noop := by
            intro hn
            rw [hnoop.mp hn] at hp
            cases hp
          have hupd2 : r.outcome = .updated := by
            rcases hout2 with h1 | h1
            · exact absurd h1 hnn
            · exact h1
          rw [(hupd hupd2).2.2]
          rfl
      · intro w hwv
        have hupd2 : r.outcome = .updated := by
          rcases hout2 with h1 | h1
          · rw [hnw (by rw [h1]; intro hh; cases hh)] at hwv
            cases hwv
          · exact h1
        rw [(hupd hupd2).2.2] at hwv
        injection hwv with hwv2
        subst hwv2
        constructor
        · rw [lookup_setField, if_pos rfl]
        · intro k hk
          rw [lookup_setField, if_neg hk]
    · intro hnone
      rw [hrt] at hnone
      cases hnone

/-! ## Well-formed manifests: the code agrees with the spec-side readings -/

theorem manVersionStr_wf (fields : List (String × JValue))
    (h : strOrFalsy (fields.lookup "package_version") = true) :
    manVersionStr fields = .ok (declaredVersion fields) := by
  unfold manVersionStr declaredVersion
  rcases hl : fields.lookup "package_version" with _ | v
  · rfl
  · rw [hl] at h
    cases v with
    | str s =>
      by_cases hs : s = ""
      · subst hs; rfl
      · show (if jTruthy (JValue.str s) = true then
            Except.ok (String.mk (pyStrip s.data)) else Except.ok "") =
          Except.ok (String.mk (pyStrip s.data))
        rw [if_pos (by simp [jTruthy, hs])]
    | null => rfl
    | bool b =>
      have hj : jTruthy (.bool b) = false := by simpa [strOrFalsy] using h
      show (if jTruthy (JValue.bool b) = true then Except.error PyErr.attrError
          else Except.ok "") = Except.ok ""
      rw [if_neg (by simp [hj])]
    | num n =>
      have hj : jTruthy (.num n) = false := by simpa [strOrFalsy] using h
      show (if jTruthy (JValue.num n) = true then Except.error PyErr.attrError
          else Except.ok "") = Except.ok ""
      rw [if_neg (by simp [hj])]
    | arr l =>
      have hj : jTruthy (.arr l) = false := by simpa [strOrFalsy] using h
      show (if jTruthy (JValue.arr l) = true then Except.error PyErr.attrError
          else Except.ok "") = Except.ok ""
      rw [if_neg (by simp [hj])]
    | obj l =>
      have hj : jTruthy (.obj l) = false := by simpa [strOrFalsy] using h
      show (if jTruthy (JValue.obj l) = true then Except.error PyErr.attrError
          else Except.ok "") = Except.ok ""
      rw [if_neg (by simp [hj])]

theorem manifestIcao_wf (fn : String) (fields : List (String × JValue))
    (h : strOrFalsy (fields.lookup "title") = true) :
    manifestIcao fn fields = .ok (specIcao fn fields) := by
  unfold manifestIcao specIcao
  rcases hf : folder_icao fn with _ | i
  · rcases hl : fields.lookup "title" with _ | v
    · rfl
    · rw [hl] at h
      cases v with
      | str s =>
        by_cases hs : s = ""
        · subst hs; rfl
        · show (if jTruthy (JValue.str s) = true then
              Except.ok (manifest_icao_from_title s)
            else Except.ok none) = Except.ok (manifest_icao_from_title s)
          rw [if_pos (by simp [jTruthy, hs])]
      | null => rfl
      | bool b =>
        have hj : jTruthy (.bool b) = false := by simpa [strOrFalsy] using h
        show (if jTruthy (JValue.bool b) = true then Except.error PyErr.typeError
            else Except.ok none) = Except.ok none
        rw [if_neg (by simp [hj])]
      | num n =>
        have hj : jTruthy (.num n) = false := by simpa [strOrFalsy] using h
        show (if jTruthy (JValue.num n) = true then Except.error PyErr.typeError
            else Except.ok none) = Except.ok none
        rw [if_neg (by simp [hj])]
      | arr l =>
        have hj : jTruthy (.arr l) = false := by simpa [strOrFalsy] using h
        show (if jTruthy (JValue.arr l) = true then Except.error PyErr.typeError
            else Except.ok none) = Except.ok none
        rw [if_neg (by simp [hj])]
      | obj l =>
        have hj : jTruthy (.obj l) = false := by simpa [strOrFalsy] using h
        show (if jTruthy (JValue.obj l) = true then Except.error PyErr.typeError
            else Except.ok none) = Except.ok none
        rw [if_neg (by simp [hj])]
  · rfl

theorem wellFormed_obj {m : Manifest} {fields : List (String × JValue)}
    (hwf : wellFormed m = true) (hmp : m.parsed = .ok (.obj fields)) :
    strOrFalsy (fields.lookup "package_version") = true ∧
    strOrFalsy (fields.lookup "title") = true := by
  unfold wellFormed at hwf
  rw [hmp] at hwf
  simpa using hwf

theorem reconSpec_obj {mode : Bool} {idx : FeedIdx} {m : Manifest}
    {fields : List (String × JValue)} (hm : m.parsed = .ok (.obj fields)) :
    reconSpec mode idx m =
      (match normalize_version_string (declaredVersion fields) with
       | none => ROutcome.no_version
       | some verNorm =>
         match specIcao m.folderName fields with
         | none => ROutcome.no_match
         | some icao =>
           match idx (strUpper icao, verNorm) with
           | none => ROutcome.no_match
           | some tag =>
             if specTagEqual fields tag then ROutcome.noop
             else if mode then ROutcome.updated
             else ROutcome.will_update) := by
  unfold reconSpec
  rw [hm]

theorem pyNeqStr_spec (fields : List (String × JValue)) (tag : String) :
    pyNeqStr (fields.lookup "simType") tag = !specTagEqual fields tag := by
  unfold pyNeqStr specTagEqual
  rcases fields.lookup "simType" with _ | v
  · rfl
  · cases v with
    | str s => by_cases hs : s = tag <;> simp [hs]
    | null => rfl
    | bool b => rfl
    | num n => rfl
    | arr l => rfl
    | obj l => rfl

theorem applyTag_eval (mode : Bool) (fields : List (String × JValue)) (tag : String) :
    applyTag mode true fields tag = .ok (
      if pyNeqStr (fields.lookup "simType") tag then
        if mode then
          { outcome := .updated, resolvedTag := some tag,
            written := some (setField fields "simType" (.str tag)) }
        else { outcome := .will_update, resolvedTag := some tag }
      else { outcome := .noop, resolvedTag := some tag }) := by
  unfold applyTag
  by_cases hp : pyNeqStr (fields.lookup "simType") tag = true <;>
    cases mode <;> simp [hp]

theorem versionStep_empty {mode wOk : Bool} {idx : FeedIdx} {fn : String}
    {fields : List (String × JValue)} {mv : String}
    (h1 : manVersionStr fields = .ok mv) (h2 : mv = "") :
    versionStep mode wOk idx fn fields = .ok { outcome := .no_version } := by
  unfold versionStep
  split
  · rename_i e he; rw [h1] at he; cases he
  · rename_i mv2 hmv2; rw [h1] at hmv2; cases hmv2; rw [if_pos h2]

theorem versionStep_nonorm {mode wOk : Bool} {idx : FeedIdx} {fn : String}
    {fields : List (String × JValue)} {mv : String}
    (h1 : manVersionStr fields = .ok mv) (h2 : mv ≠ "")
    (h3 : normalize_version_string mv = none) :
    versionStep mode wOk idx fn fields = .ok { outcome := .no_version } := by
  unfold versionStep
  split
  · rename_i e he; rw [h1] at he; cases he
  · rename_i mv2 hmv2; rw [h1] at hmv2; cases hmv2; rw [if_neg h2, h3]

theorem icaoStep_none {mode wOk : Bool} {idx : FeedIdx} {fn : String}
    {fields : List (String × JValue)} {verNorm : String}
    (hic : manifestIcao fn fields = .ok none) :
    icaoStep mode wOk idx fn fields verNorm = .ok { outcome := .no_match } := by
  unfold icaoStep
  split
  · rename_i e he; rw [hic] at he; cases he
  · rfl
  · rename_i icao2 hic2; rw [hic] at hic2; simp at hic2

theorem lookupStep_none {mode wOk : Bool} {idx : FeedIdx}
    {fields : List (String × JValue)} {verNorm icao : String}
    (hidx : idx (strUpper icao, verNorm) = none) :
    lookupStep mode wOk idx fields verNorm icao = .ok { outcome := .no_match } := by
  unfold lookupStep
  split
  · rfl
  · rename_i tag2 hidx2; rw [hidx] at hidx2; cases hidx2

/-! ## Claim C1: the fixed decision order (corrected) -/

/-- C1 counterexample: a scanned manifest whose file contains the valid JSON
`[]` produces NO outcome at all — `manifest.get` raises an uncaught
`AttributeError` (the outcome match of the claim is not reached), refuting
"exactly one outcome is produced per manifest". -/
theorem simtagger_C1_counterexample :
    processManifest false emptyIdx true ⟨"some-folder", .ok (.arr [])⟩ =
      .error .attrError := rfl

/-- C1 as amended: for every scanned manifest of the spec's data model
(parse failure, or an object whose `package_version`/`title` fields are
strings or absent or falsy), and with the apply-mode rewrite succeeding,
the step terminates with exactly one outcome, and that outcome is decided
by the claim's five rules in their stated order (`reconSpec`). -/
theorem simtagger_C1 (mode : Bool) (idx : FeedIdx) (m : Manifest)
    (hwf : wellFormed m = true)
    (hidx : ∀ k t, idx k = some t → t ≠ "") :
    ∃ r, processManifest mode idx true m = .ok r ∧
      r.outcome = reconSpec mode idx m := by
  rcases hmp : m.parsed with e | jv
  · refine ⟨{ outcome := .bad_json }, ?_, ?_⟩
    · unfold processManifest; rw [hmp]
    · unfold reconSpec; rw [hmp]
  · cases jv with
    | obj fields =>
      obtain ⟨hpv, hti⟩ := wellFormed_obj hwf hmp
      have hv := manVersionStr_wf fields hpv
      have hi := manifestIcao_wf m.folderName fields hti
      rw [reconSpec_obj hmp]
      by_cases hemp : declaredVersion fields = ""
      · refine ⟨{ outcome := .no_version }, ?_, ?_⟩
        · rw [processManifest_obj hmp, versionStep_empty hv hemp]
        · rw [hemp]
          rfl
      · rcases hn : normalize_version_string (declaredVersion fields) with _ | verNorm
        · refine ⟨{ outcome := .no_version }, ?_, ?_⟩
          · rw [processManifest_obj hmp, versionStep_nonorm hv hemp hn]
          · rfl
        · rcases hicao : specIcao m.folderName fields with _ | icao
          · refine ⟨{ outcome := .no_match }, ?_, ?_⟩
            · rw [processManifest_obj hmp, versionStep_eval hv hemp hn,
                icaoStep_none (by rw [hi, hicao])]
            · rfl
          · have hic2 : manifestIcao m.folderName fields = .ok (some icao) := by
              rw [hi, hicao]
            rcases hidx2 : idx (strUpper icao, verNorm) with _ | tag
            · refine ⟨{ outcome := .no_match }, ?_, ?_⟩
              · rw [processManifest_obj hmp, versionStep_eval hv hemp hn,
                  icaoStep_eval hic2, lookupStep_none hidx2]
              · show ROutcome.no_match =
                    match idx (strUpper icao, verNorm) with
                    | none => ROutcome.no_match
                    | some tag =>
                      if specTagEqual fields tag then ROutcome.noop
                      else if mode then ROutcome.updated
                      else ROutcome.will_update
                rw [hidx2]
            · have htag : tag ≠ "" := hidx _ _ hidx2
              have hpm := @process_eval_matched mode idx true m fields
                (declaredVersion fields) verNorm icao tag hmp hv hemp hn hic2 hidx2 htag
              refine ⟨_, hpm.trans (applyTag_eval mode fields tag), ?_⟩
              rw [pyNeqStr_spec]
              by_cases hs : specTagEqual fields tag = true
              · simp [hidx2, hs]
              · simp only [Bool.not_eq_true] at hs
                cases mode <;> simp [hidx2, hs]
    | null => unfold wellFormed at hwf; rw [hmp] at hwf; simp at hwf
    | bool b => unfold wellFormed at hwf; rw [hmp] at hwf; simp at hwf
    | num n => unfold wellFormed at hwf; rw [hmp] at hwf; simp at hwf
    | str s => unfold wellFormed at hwf; rw [hmp] at hwf; simp at hwf
    | arr l => unfold wellFormed at hwf; rw [hmp] at hwf; simp at hwf

/-- The tags of `demoIdx` are nonempty. -/
theorem demoIdx_nonempty : ∀ k t, demoIdx k = some t → t ≠ "" := by
  intro k t h
  unfold demoIdx updateIdx emptyIdx at h
  split at h
  · injection h with h2
    subst h2
    decide
  · cases h

/-- Witness for (amended) C1 at the demonstration manifest. -/
theorem simtagger_C1_witness :
    ∃ r, processManifest true demoIdx true demoMan = .ok r ∧
      r.outcome = reconSpec true demoIdx demoMan :=
  simtagger_C1 true demoIdx demoMan rfl demoIdx_nonempty

/-! ## Claim C7: exception containment (corrected) -/

/-- C7 counterexample: a failing `write_text` during the apply-mode tag
update escapes the per-manifest processing (the step yields an error, not an
outcome) and aborts the whole batch — the second manifest, whose own
processing would merely count `BAD_JSON`, is never reached. -/
theorem simtagger_C7_counterexample :
    processManifest true demoIdx false demoMan = .error .writeError ∧
    runBatch true demoIdx false [demoMan, ⟨"other-egll-v2", .error "bad json"⟩] =
      .error .writeError := ⟨rfl, rfl⟩

theorem applyTag_total (mode wOk : Bool) (fields : List (String × JValue))
    (tag : String) (hw : mode = true → wOk = true) :
    ∃ r, applyTag mode wOk fields tag = .ok r := by
  cases mode with
  | false =>
    by_cases hp : pyNeqStr (fields.lookup "simType") tag = true
    · exact ⟨_, by unfold applyTag; rw [if_neg (by simp), if_pos hp]⟩
    · exact ⟨_, by unfold applyTag; rw [if_neg (by simp), if_neg hp]⟩
  | true =>
    rw [hw rfl]
    by_cases hp : pyNeqStr (fields.lookup "simType") tag = true
    · exact ⟨_, by unfold applyTag; rw [if_pos rfl, if_pos hp, if_pos rfl]⟩
    · exact ⟨_, by unfold applyTag; rw [if_pos rfl, if_neg hp]⟩

/-- Totality of the per-manifest step on the spec's data model, when writes
succeed. -/
theorem process_total (mode : Bool) (idx : FeedIdx) (wOk : Bool) (m : Manifest)
    (hwf : wellFormed m = true) (hw : mode = true → wOk = true) :
    ∃ r, processManifest mode idx wOk m = .ok r := by
  rcases hmp : m.parsed with e | jv
  · exact ⟨_, by unfold processManifest; rw [hmp]⟩
  · cases jv with
    | obj fields =>
      obtain ⟨hpv, hti⟩ := wellFormed_obj hwf hmp
      have hv := manVersionStr_wf fields hpv
      have hi := manifestIcao_wf m.folderName fields hti
      by_cases hemp : declaredVersion fields = ""
      · exact ⟨_, by rw [processManifest_obj hmp, versionStep_empty hv hemp]⟩
      · rcases hn : normalize_version_string (declaredVersion fields) with _ | verNorm
        · exact ⟨_, by rw [processManifest_obj hmp, versionStep_nonorm hv hemp hn]⟩
        · rcases hicao : specIcao m.folderName fields with _ | icao
          · exact ⟨_, by rw [processManifest_obj hmp, versionStep_eval hv hemp hn,
              icaoStep_none (by rw [hi, hicao])]⟩
          · have hic2 : manifestIcao m.folderName fields = .ok (some icao) := by
              rw [hi, hicao]
            rcases hidx2 : idx (strUpper icao, verNorm) with _ | tag
            · exact ⟨_, by rw [processManifest_obj hmp, versionStep_eval hv hemp hn,
                icaoStep_eval hic2, lookupStep_none hidx2]⟩
            · by_cases htag : tag = ""
              · refine ⟨{ outcome := .no_match }, ?_⟩
                rw [processManifest_obj hmp, versionStep_eval hv hemp hn,
                  icaoStep_eval hic2]
                unfold lookupStep
                split
                · rename_i he; rw [hidx2] at he
                · rename_i tag2 hidx3
                  rw [hidx2] at hidx3
                  cases hidx3
                  rw [if_pos htag]
              · obtain ⟨r, hr⟩ := applyTag_total mode wOk fields tag hw
                exact ⟨r, by
                  rw [processManifest_obj hmp, versionStep_eval hv hemp hn,
                    icaoStep_eval hic2, lookupStep_eval hidx2 htag, hr]⟩
    | null => unfold wellFormed at hwf; rw [hmp] at hwf; simp at hwf
    | bool b => unfold wellFormed at hwf; rw [hmp] at hwf; simp at hwf
    | num n => unfold wellFormed at hwf; rw [hmp] at hwf; simp at hwf
    | str s => unfold wellFormed at hwf; rw [hmp] at hwf; simp at hwf
    | arr l => unfold wellFormed at hwf; rw [hmp] at hwf; simp at hwf

/-- C7 as amended: per-manifest failures ARE converted into classified
outcomes — with two exceptions the original claim overlooks: a failing
`write_text` in apply mode (see the counterexample) and a manifest whose
JSON is not an object with string-typed fields.  On the spec's data model
with succeeding writes, every manifest yields an outcome and the whole
batch completes, one outcome per manifest, no exception escaping. -/
theorem simtagger_C7 :
    (∀ (mode : Bool) (idx : FeedIdx) (wOk : Bool) (m : Manifest),
      wellFormed m = true → (mode = true → wOk = true) →
      ∃ r, processManifest mode idx wOk m = .ok r) ∧
    (∀ (mode : Bool) (idx : FeedIdx) (ms : List Manifest),
      (∀ m ∈ ms, wellFormed m = true) →
      ∃ rs, runBatch mode idx true ms = .ok rs ∧ rs.length = ms.length) := by
  refine ⟨process_total, ?_⟩
  intro mode idx ms hms
  induction ms with
  | nil => exact ⟨[], rfl, rfl⟩
  | cons m rest ih =>
    obtain ⟨r, hr⟩ := process_total mode idx true m (hms m (by simp)) (fun _ => rfl)
    obtain ⟨rs, hrs, hlen⟩ := ih (fun q hq => hms q (by simp [hq]))
    obtain ⟨p, hp⟩ : ∃ p, stepAndUpdate mode idx true m = .ok p := by
      unfold stepAndUpdate
      rw [hr]
      exact ⟨_, rfl⟩
    refine ⟨p :: rs, ?_, by simp [hlen]⟩
    unfold runBatch
    rw [hp, hrs]

/-- Witness for (amended) C7. -/
theorem simtagger_C7_witness :
    (∃ r, processManifest true demoIdx true demoMan = .ok r) ∧
    (∃ rs, runBatch false demoIdx true [demoMan] = .ok rs ∧ rs.length = 1) :=
  ⟨simtagger_C7.1 true demoIdx true demoMan rfl (fun _ => rfl),
   simtagger_C7.2 false demoIdx [demoMan]
     (fun m hm => by rw [List.mem_singleton] at hm; subst hm; rfl)⟩

/-! ## Claim C9: idempotence -/

/-- A dry-run step never writes. -/
theorem process_dry_nowrite {idx : FeedIdx} {wOk : Bool} {m : Manifest}
    {r : StepResult} (h : processManifest false idx wOk m = .ok r) :
    r.written = none := by
  rcases process_shape h with ⟨_, hw⟩ | ⟨fields, tag, _, _, hat⟩
  · exact hw
  · obtain ⟨_, _, _, hupd, _, hnw⟩ := applyTag_ok hat
    apply hnw
    intro ho
    cases (hupd ho).1

theorem manVersionStr_congr {f1 f2 : List (String × JValue)}
    (h : f1.lookup "package_version" = f2.lookup "package_version") :
    manVersionStr f1 = manVersionStr f2 := by
  unfold manVersionStr
  rw [h]

theorem manifestIcao_congr (fn : String) {f1 f2 : List (String × JValue)}
    (h : f1.lookup "title" = f2.lookup "title") :
    manifestIcao fn f1 = manifestIcao fn f2 := by
  unfold manifestIcao
  rw [h]

/-- C9 (claim): a dry run leaves every manifest unchanged, so a second
dry run over the resulting state reproduces the same outcome list (hence the
same counts); and a manifest that apply mode `updated` is `noop` on a second
apply run over the written state. -/
theorem simtagger_C9 :
    (∀ (idx : FeedIdx) (wOk : Bool) (ms : List Manifest)
        (rs : List (ROutcome × Manifest)),
      runBatch false idx wOk ms = .ok rs →
      rs.map Prod.snd = ms ∧ runBatch false idx wOk (rs.map Prod.snd) = .ok rs) ∧
    (∀ (idx : FeedIdx) (m : Manifest) (o : ROutcome) (m1 : Manifest),
      stepAndUpdate true idx true m = .ok (o, m1) →
      o = .updated →
      ∃ r2, processManifest true idx true m1 = .ok r2 ∧ r2.outcome = .noop) := by
  constructor
  · intro idx wOk ms
    induction ms with
    | nil =>
      intro rs h
      cases h
      exact ⟨rfl, rfl⟩
    | cons m rest ih =>
      intro rs h
      unfold runBatch at h
      split at h
      · cases h
      · rename_i p hp
        split at h
        · cases h
        · rename_i rs2 hrs2
          cases h
          obtain ⟨hm, hrest⟩ := ih rs2 hrs2
          have hpm : p.2 = m := by
            unfold stepAndUpdate at hp
            split at hp
            · cases hp
            · rename_i r hr
              cases hp
              rw [process_dry_nowrite hr]
          constructor
          · simp [hpm, hm]
          · show runBatch false idx wOk (p.2 :: rs2.map Prod.snd) = _
            rw [hpm, hm]
            unfold runBatch
            rw [hp, hrs2]
  · intro idx m o m1 hstep ho
    subst ho
    unfold stepAndUpdate at hstep
    split at hstep
    · cases hstep
    · rename_i r hr
      injection hstep with hpair
      injection hpair with ho1 hm1
      obtain ⟨fields, mv, verNorm, icao, tag, hmp, hv, hemp, hn, hic, hidx, htag, hat⟩ :=
        process_matched_inv hr (Or.inr (Or.inr ho1))
      obtain ⟨_, _, _, hupd, _, _⟩ := applyTag_ok hat
      obtain ⟨_, _, hwrit⟩ := hupd ho1
      rw [hwrit] at hm1
      have hm1p : m1.parsed = .ok (.obj (setField fields "simType" (.str tag))) := by
        rw [← hm1]
      have hm1f : m1.folderName = m.folderName := by
        rw [← hm1]
      have hpv2 : (setField fields "simType" (.str tag)).lookup "package_version" =
          fields.lookup "package_version" := by
        rw [lookup_setField, if_neg (by decide)]
      have hti2 : (setField fields "simType" (.str tag)).lookup "title" =
          fields.lookup "title" := by
        rw [lookup_setField, if_neg (by decide)]
      have hv2 : manVersionStr (setField fields "simType" (.str tag)) = .ok mv :=
        (manVersionStr_congr hpv2).trans hv
      have hic2 : manifestIcao m1.folderName (setField fields "simType" (.str tag)) =
          .ok (some icao) := by
        rw [hm1f]
        exact (manifestIcao_congr m.folderName hti2).trans hic
      have hpm2 := @process_eval_matched true idx true m1
        (setField fields "simType" (.str tag)) mv verNorm icao tag
        hm1p hv2 hemp hn hic2 hidx htag
      refine ⟨{ outcome := .noop, resolvedTag := some tag }, ?_, rfl⟩
      rw [hpm2]
      unfold applyTag
      rw [if_pos rfl, if_neg]
      intro hneq
      rw [lookup_setField, if_pos rfl] at hneq
      simp [pyNeqStr] at hneq

/-- Witness for C9: a dry run over the demonstration manifest reproduces
itself; an apply-mode `updated` is `noop` the second time. -/
theorem simtagger_C9_witness :
    ((([(ROutcome.will_update, demoMan)] : List (ROutcome × Manifest)).map Prod.snd
        = [demoMan]) ∧
      runBatch false demoIdx true
          (([(ROutcome.will_update, demoMan)] : List (ROutcome × Manifest)).map Prod.snd) =
        .ok [(ROutcome.will_update, demoMan)]) ∧
    (∃ r2, processManifest true demoIdx true
        ⟨"addon-klax-v1",
         .ok (.obj (setField demoFields "simType" (.str "MSFS 2020/2024")))⟩ = .ok r2 ∧
      r2.outcome = .noop) :=
  ⟨simtagger_C9.1 demoIdx true [demoMan] [(ROutcome.will_update, demoMan)] rfl,
   simtagger_C9.2 demoIdx demoMan ROutcome.updated
     ⟨"addon-klax-v1",
      .ok (.obj (setField demoFields "simType" (.str "MSFS 2020/2024")))⟩ rfl rfl⟩


/-- Witness for C8 at the demonstration manifest: the write happened because
`simType` differed, and `package_version` survived the rewrite verbatim. -/
theorem simtagger_C8_witness :
    (({ outcome := ROutcome.updated, resolvedTag := some "MSFS 2020/2024",
        written := some (setField demoFields "simType" (.str "MSFS 2020/2024")) }
        : StepResult).written.isSome
      ↔ demoFields.lookup "simType" ≠ some (.str "MSFS 2020/2024")) ∧
    ((setField demoFields "simType" (.str "MSFS 2020/2024")).lookup "package_version" =
      demoFields.lookup "package_version") := by
  have H := @simtagger_C8 demoIdx demoMan
    { outcome := ROutcome.updated, resolvedTag := some "MSFS 2020/2024",
      written := some (setField demoFields "simType" (.str "MSFS 2020/2024")) }
    demoFields rfl rfl
  refine ⟨(H.1 "MSFS 2020/2024" rfl).1, ?_⟩
  have h2 := ((H.1 "MSFS 2020/2024" rfl).2 _ rfl).2 "package_version" (by decide)
  exact h2

/-! ## The feed build as a write trace (claims C4 and C10) -/

theorem lastVal_cons (w : (String × String) × String)
    (ws : List ((String × String) × String)) (k : String × String) :
    lastVal (w :: ws) k =
      (match lastVal ws k with
       | some v => some v
       | none => if w.1 = k then some w.2 else none) := by
  unfold lastVal
  rw [List.reverse_cons, List.find?_append]
  rcases h : ws.reverse.find? (fun x => x.1 = k) with _ | x
  · rw [h]
    by_cases hk : w.1 = k
    · simp [List.find?_singleton, hk, Option.or]
    · simp [List.find?_singleton, hk, Option.or]
  · rw [h]
    simp [Option.or]

theorem applyWrites_lookup (ws : List ((String × String) × String)) :
    ∀ (idx : FeedIdx) (k : String × String),
    applyWrites idx ws k =
      (match lastVal ws k with
       | some v => some v
       | none => idx k) := by
  induction ws with
  | nil => intro idx k; rfl
  | cons w rest ih =>
    intro idx k
    show applyWrites (updateIdx idx w.1 w.2) rest k = _
    rw [ih, lastVal_cons]
    rcases lastVal rest k with _ | v
    · show updateIdx idx w.1 w.2 k = _
      unfold updateIdx
      by_cases hk : k = w.1
      · rw [if_pos hk, if_pos hk.symm]
      · rw [if_neg hk, if_neg (fun hh => hk hh.symm)]
    · rfl

theorem applyWrites_append (idx : FeedIdx)
    (w1 w2 : List ((String × String) × String)) :
    applyWrites idx (w1 ++ w2) = applyWrites (applyWrites idx w1) w2 := by
  unfold applyWrites
  rw [List.foldl_append]

theorem add_item_eq (aT : String) (idx : FeedIdx) (it : FeedItem) :
    add_item aT idx it = applyWrites idx (itemWrites aT it) := by
  unfold add_item itemWrites
  by_cases hm : is_msfs aT it = true
  · rw [if_pos hm, if_pos hm]
    rcases it.version with _ | ver
    · rfl
    · unfold applyWrites
      rw [List.foldl_map]
  · rw [if_neg hm, if_neg hm]
    rfl

theorem loadRaw_shift {aT : String} {raw : JValue} {idx idx2 : FeedIdx}
    (h : loadRaw aT idx raw = some idx2) (idx' : FeedIdx) :
    loadRaw aT idx' raw = some (applyWrites idx' (rawWrites aT raw)) := by
  cases raw with
  | obj fields =>
    have h2 : (match mkFeedItem fields with
        | none => (none : Option FeedIdx)
        | some it => some (if is_msfs aT it then add_item aT idx it else idx)) =
        some idx2 := h
    show (match mkFeedItem fields with
        | none => (none : Option FeedIdx)
        | some it => some (if is_msfs aT it then add_item aT idx' it else idx')) =
      some (applyWrites idx' (rawWrites aT (.obj fields)))
    rcases hmk : mkFeedItem fields with _ | it
    · rw [hmk] at h2; cases h2
    · have hrw : rawWrites aT (JValue.obj fields) = itemWrites aT it := by
        have hrfl : rawWrites aT (JValue.obj fields) =
            (match mkFeedItem fields with
             | some it2 => itemWrites aT it2
             | none => []) := rfl
        rw [hrfl, hmk]
      rw [hrw]
      show some (if is_msfs aT it then add_item aT idx' it else idx') =
        some (applyWrites idx' (itemWrites aT it))
      by_cases hm : is_msfs aT it = true
      · rw [if_pos hm, add_item_eq]
      · rw [if_neg hm]
        unfold itemWrites
        rw [if_neg hm]
        rfl
  | null => rfl
  | bool b => rfl
  | num n => rfl
  | str s => rfl
  | arr l => rfl

theorem loadItems_shift {aT : String} : ∀ {items : List JValue} {idx idx2 : FeedIdx},
    loadItems aT idx items = some idx2 → ∀ idx' : FeedIdx,
    loadItems aT idx' items =
      some (applyWrites idx' ((items.map (rawWrites aT)).flatten)) := by
  intro items
  induction items with
  | nil =>
    intro idx idx2 _ idx'
    rfl
  | cons raw rest ih =>
    intro idx idx2 h idx'
    have h2 : (match loadRaw aT idx raw with
        | none => (none : Option FeedIdx)
        | some idx3 => loadItems aT idx3 rest) = some idx2 := h
    rcases hr : loadRaw aT idx raw with _ | idxm
    · rw [hr] at h2; cases h2
    · rw [hr] at h2
      have h3 : loadItems aT idxm rest = some idx2 := h2
      show (match loadRaw aT idx' raw with
        | none => (none : Option FeedIdx)
        | some idx3 => loadItems aT idx3 rest) = _
      rw [loadRaw_shift hr idx']
      show loadItems aT (applyWrites idx' (rawWrites aT raw)) rest = _
      rw [ih h3 (applyWrites idx' (rawWrites aT raw)),
        show (List.map (rawWrites aT) (raw :: rest)).flatten =
          rawWrites aT raw ++ (List.map (rawWrites aT) rest).flatten by simp,
        applyWrites_append]

theorem srcWrites_ok {aT : String} {src : FeedSource} {data : JValue}
    (hp : src.parsed = .ok data) :
    srcWrites aT src =
      (match parsedItems data with
       | none => []
       | some items => (items.map (rawWrites aT)).flatten) := by
  unfold srcWrites
  rw [hp]

theorem loadOne_ok {aT : String} {idx : FeedIdx} {src : FeedSource} {data : JValue}
    (hp : src.parsed = .ok data) :
    loadOne aT idx src =
      (match parsedItems data with
       | none => some idx
       | some items => loadItems aT idx items) := by
  unfold loadOne
  rw [hp]

theorem loadOne_shift {aT : String} {src : FeedSource} {idx idx2 : FeedIdx}
    (h : loadOne aT idx src = some idx2) (idx' : FeedIdx) :
    loadOne aT idx' src = some (applyWrites idx' (srcWrites aT src)) := by
  rcases hp : src.parsed with e | data
  · have hs : srcWrites aT src = [] := by unfold srcWrites; rw [hp]
    have hl : loadOne aT idx' src = some idx' := by unfold loadOne; rw [hp]
    rw [hl, hs]
    rfl
  · rcases hi : parsedItems data with _ | items
    · have hs : srcWrites aT src = [] := by rw [srcWrites_ok hp, hi]
      have hl : loadOne aT idx' src = some idx' := by rw [loadOne_ok hp, hi]
      rw [hl, hs]
      rfl
    · have hs : srcWrites aT src = (items.map (rawWrites aT)).flatten := by
        rw [srcWrites_ok hp, hi]
      have hh : loadItems aT idx items = some idx2 := by
        rw [loadOne_ok hp, hi] at h
        exact h
      rw [loadOne_ok hp, hi, hs]
      exact loadItems_shift hh idx'

theorem loadSorted_eq {aT : String} : ∀ {srcs : List FeedSource} {idx idx2 : FeedIdx},
    loadSorted aT idx srcs = some idx2 →
    idx2 = applyWrites idx ((srcs.map (srcWrites aT)).flatten) := by
  intro srcs
  induction srcs with
  | nil =>
    intro idx idx2 h
    cases h
    rfl
  | cons s rest ih =>
    intro idx idx2 h
    have h2 : (match loadOne aT idx s with
        | none => (none : Option FeedIdx)
        | some idx3 => loadSorted aT idx3 rest) = some idx2 := h
    rcases hs : loadOne aT idx s with _ | idxm
    · rw [hs] at h2; cases h2
    · rw [hs] at h2
      have h3 : loadSorted aT idxm rest = some idx2 := h2
      have hm : idxm = applyWrites idx (srcWrites aT s) := by
        have h4 := loadOne_shift hs idx
        rw [hs] at h4
        injection h4
      rw [ih h3, hm,
        show (List.map (srcWrites aT) (s :: rest)).flatten =
          srcWrites aT s ++ (List.map (srcWrites aT) rest).flatten by simp,
        applyWrites_append]


theorem lexLt_lexLe : ∀ (a b : List Char), lexLt a b = true → lexLe a b = true := by
  intro a
  induction a with
  | nil => intro b _; rfl
  | cons x as ih =>
    intro b h
    cases b with
    | nil => cases h
    | cons y bs =>
      have h2 : (if x < y then true else if y < x then false else lexLt as bs) = true := h
      show (if x < y then true else if y < x then false else lexLe as bs) = true
      by_cases hxy : x < y
      · rw [if_pos hxy]
      · rw [if_neg hxy] at h2 ⊢
        by_cases hyx : y < x
        · rw [if_pos hyx] at h2; cases h2
        · rw [if_neg hyx] at h2 ⊢
          exact ih bs h2

theorem lexLt_asymm : ∀ (a b : List Char), lexLt a b = true → lexLe b a = false := by
  intro a
  induction a with
  | nil =>
    intro b h
    cases b with
    | nil => cases h
    | cons y bs => rfl
  | cons x as ih =>
    intro b h
    cases b with
    | nil => cases h
    | cons y bs =>
      have h2 : (if x < y then true else if y < x then false else lexLt as bs) = true := h
      show (if y < x then true else if x < y then false else lexLe bs as) = false
      by_cases hxy : x < y
      · rw [if_neg (lt_asymm hxy), if_pos hxy]
      · rw [if_neg hxy] at h2
        by_cases hyx : y < x
        · rw [if_pos hyx] at h2; cases h2
        · rw [if_neg hyx] at h2
          rw [if_neg hyx, if_neg hxy]
          exact ih bs h2

theorem lastVal_append (w1 w2 : List ((String × String) × String)) (k : String × String) :
    lastVal (w1 ++ w2) k =
      (match lastVal w2 k with
       | some v => some v
       | none => lastVal w1 k) := by
  unfold lastVal
  rw [List.reverse_append, List.find?_append]
  rcases h : w2.reverse.find? (fun x => x.1 = k) with _ | x
  · rw [h]
    simp [Option.or]
  · rw [h]
    simp [Option.or]

/-- C4 (claim): feed sources are processed in lexicographic name order
(regardless of the order in which the directory listed them); a key carried
by acceptable entries of two sources resolves to the tag contributed by the
lexicographically later source; and every insertion overwrites any previous
mapping of its key (the index — a function — holds exactly one tag per key). -/
theorem simtagger_C4 (aT : String) (s1 s2 : FeedSource) (l : List FeedSource)
    (idx : FeedIdx) (k : String × String) (t t1 : String)
    (hname : strLt s1.name s2.name = true)
    (hl : l = [s1, s2] ∨ l = [s2, s1])
    (hload : load_feed_index aT l = some idx)
    (h1 : lastVal (srcWrites aT s1) k = some t1)
    (h2 : lastVal (srcWrites aT s2) k = some t) :
    idx k = some t ∧
    (∀ (f : FeedIdx) (key : String × String) (v : String),
      updateIdx f key v key = some v) := by
  have hsort : sortFeeds l = [s1, s2] := by
    rcases hl with rfl | rfl
    · show (if strLe s1.name s2.name then [s1, s2] else s2 :: insertFeed s1 []) = [s1, s2]
      rw [if_pos (show strLe s1.name s2.name = true from lexLt_lexLe _ _ hname)]
    · have hf : strLe s2.name s1.name = false := lexLt_asymm _ _ hname
      show (if strLe s2.name s1.name then [s2, s1] else s1 :: insertFeed s2 []) = [s1, s2]
      rw [if_neg (by simp [hf])]
      rfl
  unfold load_feed_index at hload
  rw [hsort] at hload
  have heq := loadSorted_eq hload
  constructor
  · rw [heq,
      show (List.map (srcWrites aT) [s1, s2]).flatten =
        srcWrites aT s1 ++ srcWrites aT s2 by simp,
      applyWrites_lookup, lastVal_append, h2]
  · intro f key v
    unfold updateIdx
    rw [if_pos rfl]

/-- Witness for C4: both input orders of the two demonstration sources give
the same index, resolving the shared key. -/
theorem simtagger_C4_witness :
    ((load_feed_index "MSFS 2020/2024" [demoFeedA, demoFeedB]).getD emptyIdx)
      ("KLAX", "1.0.0") = some "MSFS 2020/2024" ∧
    ((load_feed_index "MSFS 2020/2024" [demoFeedB, demoFeedA]).getD emptyIdx)
      ("KLAX", "1.0.0") = some "MSFS 2020/2024" := by
  constructor
  · exact (simtagger_C4 "MSFS 2020/2024" demoFeedA demoFeedB [demoFeedA, demoFeedB]
      ((load_feed_index "MSFS 2020/2024" [demoFeedA, demoFeedB]).getD emptyIdx)
      ("KLAX", "1.0.0") "MSFS 2020/2024" "MSFS 2020/2024"
      (by decide) (Or.inl rfl) (by rfl) (by rfl) (by rfl)).1
  · exact (simtagger_C4 "MSFS 2020/2024" demoFeedA demoFeedB [demoFeedB, demoFeedA]
      ((load_feed_index "MSFS 2020/2024" [demoFeedB, demoFeedA]).getD emptyIdx)
      ("KLAX", "1.0.0") "MSFS 2020/2024" "MSFS 2020/2024"
      (by decide) (Or.inr rfl) (by rfl) (by rfl) (by rfl)).1

/-! ## Claim C10: every stored tag is the accepted tag -/

theorem itemWrites_val {aT : String} {it : FeedItem} :
    ∀ w ∈ itemWrites aT it, w.2 = aT := by
  unfold itemWrites
  by_cases hm : is_msfs aT it = true
  · rw [if_pos hm]
    rcases it.version with _ | ver
    · intro w hw; cases hw
    · intro w hw
      simp only [List.mem_map] at hw
      obtain ⟨icao, _, rfl⟩ := hw
      show it.tag = aT
      unfold is_msfs at hm
      simp only [Bool.and_eq_true, decide_eq_true_eq] at hm
      exact hm.1.1
  · rw [if_neg hm]
    intro w hw
    cases hw

theorem rawWrites_val {aT : String} {raw : JValue} :
    ∀ w ∈ rawWrites aT raw, w.2 = aT := by
  cases raw with
  | obj fields =>
    have hrfl : rawWrites aT (JValue.obj fields) =
        (match mkFeedItem fields with
         | some it2 => itemWrites aT it2
         | none => []) := rfl
    rw [hrfl]
    rcases hmk : mkFeedItem fields with _ | it
    · intro w hw; cases hw
    · exact itemWrites_val
  | null => intro w hw; cases hw
  | bool b => intro w hw; cases hw
  | num n => intro w hw; cases hw
  | str s => intro w hw; cases hw
  | arr a => intro w hw; cases hw

theorem srcWrites_val {aT : String} {src : FeedSource} :
    ∀ w ∈ srcWrites aT src, w.2 = aT := by
  rcases hp : src.parsed with e | data
  · rw [show srcWrites aT src = [] from by unfold srcWrites; rw [hp]]
    intro w hw
    cases hw
  · rw [srcWrites_ok hp]
    rcases hi : parsedItems data with _ | items
    · intro w hw; cases hw
    · intro w hw
      simp only [List.mem_flatten, List.mem_map] at hw
      obtain ⟨ws, ⟨raw, _, rfl⟩, hw2⟩ := hw
      exact rawWrites_val w hw2

theorem lastVal_val {aT : String} {ws : List ((String × String) × String)}
    {k : String × String} {t : String} (h : lastVal ws k = some t)
    (hall : ∀ w ∈ ws, w.2 = aT) : t = aT := by
  unfold lastVal at h
  rcases h2 : ws.reverse.find? (fun x => x.1 = k) with _ | x
  · rw [h2] at h; cases h
  · rw [h2] at h
    injection h with h3
    rw [← h3]
    exact hall x (by
      rw [← List.mem_reverse]
      exact List.mem_of_find?_eq_some h2)

/-- Every tag stored by the feed build is the configured accepted tag. -/
theorem load_values {aT : String} {srcs : List FeedSource} {idx : FeedIdx}
    (h : load_feed_index aT srcs = some idx) :
    ∀ k t, idx k = some t → t = aT := by
  intro k t hk
  unfold load_feed_index at h
  have heq := loadSorted_eq h
  rw [heq, applyWrites_lookup] at hk
  rcases hlv : lastVal ((sortFeeds srcs).map (srcWrites aT)).flatten k with _ | v
  · rw [hlv] at hk
    cases hk
  · rw [hlv] at hk
    have hv : v = t := by injection hk
    rw [← hv]
    refine lastVal_val hlv ?_
    intro w hw
    simp only [List.mem_flatten, List.mem_map] at hw
    obtain ⟨ws, ⟨src, _, rfl⟩, hw2⟩ := hw
    exact srcWrites_val w hw2

/-- C10 (claim): every value stored in the finished index equals the
configured accepted tag, so whenever a manifest's lookup succeeds (outcomes
`noop`, `will_update`, `updated`) the resolved tag equals the accepted tag
and the `after == ACCEPTED_TAG` relocation guard of line 390 is taken. -/
theorem simtagger_C10 (aT : String) (srcs : List FeedSource) (idx : FeedIdx)
    (hload : load_feed_index aT srcs = some idx) :
    (∀ k t, idx k = some t → t = aT) ∧
    (∀ (mode wOk : Bool) (m : Manifest) (r : StepResult),
      processManifest mode idx wOk m = .ok r →
      (r.outcome = .noop ∨ r.outcome = .will_update ∨ r.outcome = .updated) →
      r.resolvedTag = some aT ∧ relocGuard aT r = true) := by
  have hv := load_values hload
  refine ⟨hv, ?_⟩
  intro mode wOk m r h ho
  obtain ⟨fields, mv, verNorm, icao, tag, _, _, _, _, _, hidx, _, hat⟩ :=
    process_matched_inv h ho
  have htag : tag = aT := hv _ _ hidx
  have hrt : r.resolvedTag = some tag := (applyTag_ok hat).1
  subst htag
  refine ⟨hrt, ?_⟩
  unfold relocGuard
  rw [hrt]
  simp

/-- Witness for C10: with the demonstration feed, the demonstration manifest
matches, resolves to the accepted tag, and enters the relocation branch. -/
theorem simtagger_C10_witness :
    ∃ r, processManifest false ((load_feed_index "MSFS 2020/2024" demoFeed).getD emptyIdx)
        true demoMan = .ok r ∧
      r.resolvedTag = some "MSFS 2020/2024" ∧
      relocGuard "MSFS 2020/2024" r = true := by
  have H := simtagger_C10 "MSFS 2020/2024" demoFeed
    ((load_feed_index "MSFS 2020/2024" demoFeed).getD emptyIdx) (by rfl)
  refine ⟨{ outcome := .will_update, resolvedTag := some "MSFS 2020/2024" }, rfl, ?_⟩
  exact H.2 false true demoMan
    { outcome := .will_update, resolvedTag := some "MSFS 2020/2024" }
    rfl (Or.inr (Or.inl rfl))

/-! ## Claim C5: identifier extraction from a feed entry -/

theorem filterMap_ext {α β : Type} (f g : α → Option β) (l : List α)
    (h : ∀ a, f a = g a) : List.filterMap f l = List.filterMap g l := by
  have h2 : f = g := funext h
  rw [h2]

theorem filterMap_range_succ {α : Type} (f : Nat → Option α) (n : Nat) :
    List.filterMap f (List.range (n + 1)) =
      (match f 0 with | some b => [b] | none => []) ++
        List.filterMap (fun i => f (i + 1)) (List.range n) := by
  rw [List.range_succ_eq_map, List.filterMap_cons, List.filterMap_map]
  have hcomp : (f ∘ Nat.succ) = (fun i => f (i + 1)) := rfl
  rw [hcomp]
  rcases hf : f 0 with _ | b
  · rfl
  · rfl

theorem prevOkAt_shift (pw : Bool) (c : Char) (r : List Char) (i : Nat) :
    prevOkAt pw (c :: r) (i + 1) = prevOkAt (isWordChar c) r i := by
  cases i with
  | zero => rfl
  | succ j => rfl

theorem tokenAt_shift (c : Char) (r : List Char) (i : Nat) :
    tokenAt (c :: r) (i + 1) = tokenAt r i := by
  unfold tokenAt
  rw [List.drop_succ_cons]

/-- The head alternative of the `\b([A-Za-z]{4})\b` scan agrees with the
declarative token-at-position-0 test. -/
theorem tokenAt_head (l : List Char) :
    (match take4AlphaR l with
      | some (g, _, rest) => if boundaryOk rest then [g] else []
      | none => ([] : List (List Char))) =
    (match tokenAt l 0 with | some g => [g] | none => []) := by
  cases l with
  | nil => rfl
  | cons a l1 =>
  cases l1 with
  | nil => rfl
  | cons b l2 =>
  cases l2 with
  | nil => rfl
  | cons c l3 =>
  cases l3 with
  | nil => rfl
  | cons d t =>
  unfold take4AlphaR tokenAt
  rw [List.drop_zero]
  cases ha : (isAsciiAlpha a && isAsciiAlpha b && isAsciiAlpha c && isAsciiAlpha d) <;>
    cases hb : boundaryOk t <;>
    simp [ha, hb]

/-- One step of the title scan, on the declarative side. -/
theorem anyIcaoDecl_cons (pw : Bool) (c : Char) (r : List Char) :
    anyIcaoDecl pw (c :: r) =
      (match (if pw then none else tokenAt (c :: r) 0) with
        | some g => [g]
        | none => []) ++ anyIcaoDecl (isWordChar c) r := by
  unfold anyIcaoDecl
  rw [show (c :: r).length = r.length + 1 from rfl, filterMap_range_succ]
  congr 1
  · cases pw
    · rcases h0 : tokenAt (c :: r) 0 with _ | g <;> simp [prevOkAt, h0]
    · simp [prevOkAt]
  · exact filterMap_ext _ _ _ (fun i => by
      show (if prevOkAt pw (c :: r) (i + 1) then tokenAt (c :: r) (i + 1) else none) =
        (if prevOkAt (isWordChar c) r i then tokenAt r i else none)
      rw [prevOkAt_shift, tokenAt_shift])

/-- The advance-by-one `findall` scan of `RE_ANY_ICAO` collects exactly the
declaratively word-bounded 4-letter tokens, in position order. -/
theorem anyIcaoScan_decl : ∀ (l : List Char) (pw : Bool),
    anyIcaoScan pw l = anyIcaoDecl pw l := by
  intro l
  induction l with
  | nil =>
    intro pw
    rfl
  | cons c r ih =>
    intro pw
    rw [anyIcaoDecl_cons, ← ih (isWordChar c)]
    show (if !pw then
        match take4AlphaR (c :: r) with
        | some (g, _, rest) => if boundaryOk rest then [g] else []
        | none => []
      else []) ++ anyIcaoScan (isWordChar c) r =
      (match (if pw then none else tokenAt (c :: r) 0) with
        | some g => [g]
        | none => []) ++ anyIcaoScan (isWordChar c) r
    congr 1
    cases pw
    · exact tokenAt_head (c :: r)
    · rfl

theorem slugTokenAt_here_nil (a b c d : Char)
    (ha : (isAsciiAlpha a && isAsciiAlpha b && isAsciiAlpha c && isAsciiAlpha d) = true) :
    slugTokenAt [a, b, c, d] 0 = some [a, b, c, d] := by
  simp [slugTokenAt, ha]

theorem slugTokenAt_here_cons (a b c d e : Char) (t : List Char)
    (ha : (isAsciiAlpha a && isAsciiAlpha b && isAsciiAlpha c && isAsciiAlpha d) = true)
    (he : isSlugDelim e = true) :
    slugTokenAt (a :: b :: c :: d :: e :: t) 0 = some [a, b, c, d] := by
  simp [slugTokenAt, ha, he]

theorem slugTokenAt_shift (c : Char) (r : List Char) (i : Nat) :
    slugTokenAt (c :: r) (i + 1) = slugTokenAt r i := by
  unfold slugTokenAt
  rw [List.drop_succ_cons]

/-- A successful group match at the current position is a delimiter-bounded
token at position 0, and consumes a prefix of the input. -/
theorem slugGroupAt_inv : ∀ {l g rest : List Char},
    slugGroupAt l = some (g, rest) →
    slugTokenAt l 0 = some g ∧ ∃ pre, l = pre ++ rest := by
  intro l g rest h
  cases l with
  | nil => exact Option.noConfusion h
  | cons a l1 =>
  cases l1 with
  | nil => exact Option.noConfusion h
  | cons b l2 =>
  cases l2 with
  | nil => exact Option.noConfusion h
  | cons c l3 =>
  cases l3 with
  | nil => exact Option.noConfusion h
  | cons d t =>
  by_cases ha : (isAsciiAlpha a && isAsciiAlpha b && isAsciiAlpha c && isAsciiAlpha d) = true
  · have h4a : take4AlphaR (a :: b :: c :: d :: t) = some ([a, b, c, d], d, t) := by
      simp [take4AlphaR, ha]
    have h2 : (slugTail t).map
        (fun r3 => (([a, b, c, d] : List Char), r3)) = some (g, rest) := by
      have h3 : slugGroupAt (a :: b :: c :: d :: t) =
          (slugTail t).map (fun r3 => (([a, b, c, d] : List Char), r3)) := by
        unfold slugGroupAt
        rw [h4a]
      rw [← h3]
      exact h
    cases t with
    | nil =>
      have h3 : some (([a, b, c, d] : List Char), ([] : List Char)) = some (g, rest) := h2
      injection h3 with h4
      injection h4 with hg hr
      subst hg
      subst hr
      exact ⟨slugTokenAt_here_nil a b c d ha, [a, b, c, d], rfl⟩
    | cons e t2 =>
      by_cases he : isSlugDelim e = true
      · have h3 : some (([a, b, c, d] : List Char), t2) = some (g, rest) := by
          have h4 : slugTail (e :: t2) = some t2 := by
            simp [slugTail, he]
          rw [h4] at h2
          exact h2
        injection h3 with h4
        injection h4 with hg hr
        subst hg
        subst hr
        exact ⟨slugTokenAt_here_cons a b c d e t2 ha he, [a, b, c, d, e], rfl⟩
      · have h4 : slugTail (e :: t2) = none := by
          simp [slugTail, he]
        rw [h4] at h2
        exact Option.noConfusion h2
  · have h4a : take4AlphaR (a :: b :: c :: d :: t) = none := by
      simp [take4AlphaR, ha]
    have h3 : slugGroupAt (a :: b :: c :: d :: t) = none := by
      unfold slugGroupAt
      rw [h4a]
    rw [h3] at h
    exact Option.noConfusion h

/-- A match of the slug pattern yields a delimiter-bounded token; when the
zero-width start alternative is unavailable its position is at least 1. -/
theorem slugMatchAt_inv : ∀ {canCaret : Bool} {l g rest : List Char},
    slugMatchAt canCaret l = some (g, rest) →
    (∃ i, slugPrevOkAt l i = true ∧ slugTokenAt l i = some g ∧
      (canCaret = true ∨ 1 ≤ i)) ∧
    ∃ pre, l = pre ++ rest := by
  intro canCaret l g rest h
  unfold slugMatchAt at h
  split at h
  · rename_i x heq
    injection h with h2
    subst h2
    cases canCaret with
    | true =>
      have heq2 : slugGroupAt l = some (g, rest) := by simpa using heq
      obtain ⟨ht, pre, hpre⟩ := slugGroupAt_inv heq2
      exact ⟨⟨0, rfl, ht, Or.inl rfl⟩, pre, hpre⟩
    | false => simp at heq
  · cases l with
    | nil => exact Option.noConfusion h
    | cons c r =>
      have h4 : (if isSlugDelim c then slugGroupAt r else none) = some (g, rest) := h
      by_cases hc : isSlugDelim c = true
      · rw [if_pos hc] at h4
        obtain ⟨ht, pre, hpre⟩ := slugGroupAt_inv h4
        refine ⟨⟨1, hc, ?_, Or.inr (le_refl 1)⟩, c :: pre, ?_⟩
        · rw [slugTokenAt_shift]
          exact ht
        · simp [hpre]
      · rw [if_neg hc] at h4
        exact Option.noConfusion h4

theorem slugDecl_lift (c : Char) (r g : List Char) (i : Nat) (h1 : 1 ≤ i)
    (hp : slugPrevOkAt r i = true) (ht : slugTokenAt r i = some g) :
    slugPrevOkAt (c :: r) (i + 1) = true ∧ slugTokenAt (c :: r) (i + 1) = some g := by
  obtain ⟨j, rfl⟩ : ∃ j, i = j + 1 := ⟨i - 1, (Nat.succ_pred_eq_of_pos h1).symm⟩
  refine ⟨hp, ?_⟩
  rw [slugTokenAt_shift]
  exact ht

theorem slugDecl_lift_many : ∀ (pre : List Char) (r g : List Char) (i : Nat),
    1 ≤ i → slugPrevOkAt r i = true → slugTokenAt r i = some g →
    slugPrevOkAt (pre ++ r) (i + pre.length) = true ∧
    slugTokenAt (pre ++ r) (i + pre.length) = some g := by
  intro pre
  induction pre with
  | nil =>
    intro r g i h1 hp ht
    exact ⟨hp, ht⟩
  | cons x p ih =>
    intro r g i h1 hp ht
    have hih := ih r g i h1 hp ht
    exact slugDecl_lift x (p ++ r) g (i + p.length)
      (le_trans h1 (Nat.le_add_right i p.length)) hih.1 hih.2

theorem slugScanF_succ_eq (n : Nat) (cc : Bool) (l : List Char) :
    slugScanF (n + 1) cc l =
      (match slugMatchAt cc l with
        | some (g1, r1) => g1 :: slugScanF n false r1
        | none =>
          match l with
          | [] => []
          | _ :: r => slugScanF n false r) := rfl

/-- Every token the `RE_SLUG_ICAO` scan produces is delimiter-bounded at some
position of the input; with the start alternative available this position may
be 0, otherwise it is at least 1 (the scan never recovers a token that begins
exactly where the delimiter consumed by the previous match ended). -/
theorem slugScanF_sound : ∀ (fuel : Nat) (canCaret : Bool) (l g : List Char),
    g ∈ slugScanF fuel canCaret l →
    ∃ i, slugPrevOkAt l i = true ∧ slugTokenAt l i = some g ∧
      (canCaret = true ∨ 1 ≤ i) := by
  intro fuel
  induction fuel with
  | zero =>
    intro canCaret l g h
    simp [slugScanF] at h
  | succ n ih =>
    intro canCaret l g h
    rw [slugScanF_succ_eq] at h
    rcases hm : slugMatchAt canCaret l with _ | ⟨g0, rest⟩
    · rw [hm] at h
      cases l with
      | nil => simp at h
      | cons c r =>
        have h3 : g ∈ slugScanF n false r := h
        obtain ⟨i, hp, ht, hor⟩ := ih false r g h3
        have h1 : 1 ≤ i := by
          rcases hor with hx | hx
          · exact absurd hx (by simp)
          · exact hx
        obtain ⟨hp2, ht2⟩ := slugDecl_lift c r g i h1 hp ht
        exact ⟨i + 1, hp2, ht2, Or.inr (Nat.succ_le_succ (Nat.zero_le i))⟩
    · rw [hm] at h
      have h3 : g ∈ g0 :: slugScanF n false rest := h
      obtain ⟨⟨i0, hp0, ht0, hor0⟩, pre, hpre⟩ := slugMatchAt_inv hm
      rcases List.mem_cons.mp h3 with rfl | hrec
      · exact ⟨i0, hp0, ht0, hor0⟩
      · obtain ⟨j, hpj, htj, horj⟩ := ih false rest g hrec
        have h1 : 1 ≤ j := by
          rcases horj with hx | hx
          · exact absurd hx (by simp)
          · exact hx
        obtain ⟨hp2, ht2⟩ := slugDecl_lift_many pre rest g j h1 hpj htj
        subst hpre
        exact ⟨j + pre.length, hp2, ht2,
          Or.inr (le_trans h1 (Nat.le_add_right j pre.length))⟩

theorem slugTokenAt_lt : ∀ {l : List Char} {i : Nat} {g : List Char},
    slugTokenAt l i = some g → i < l.length := by
  intro l i g h
  by_contra hge
  have hle : l.length ≤ i := Nat.le_of_not_lt hge
  have hd : l.drop i = [] := List.drop_eq_nil_of_le hle
  unfold slugTokenAt at h
  rw [hd] at h
  exact Option.noConfusion h

/-- Every token found by the source's slug scan is one of the declaratively
delimiter-bounded tokens (the converse fails: see the C5 counterexample). -/
theorem slugTokens_sound (l : List Char) : ∀ g ∈ slugTokens l, g ∈ slugDeclTokens l := by
  intro g hg
  obtain ⟨i, hp, ht, _⟩ := slugScanF_sound (l.length + 1) true l g hg
  unfold slugDeclTokens
  rw [List.mem_filterMap]
  refine ⟨i, List.mem_range.mpr (slugTokenAt_lt ht), ?_⟩
  simp [hp, ht]

/-- C5 (counterexample): in the URL slug `a-klax-egll-b` both `klax` and
`egll` are delimiter-bounded 4-letter tokens, but the extraction returns only
`KLAX`: the match of `klax` consumes the shared delimiter, so the `findall`
scan never tries `egll` with a delimiter before it.  This refutes the claim
that the slug contributes ALL its delimiter-bounded 4-letter tokens. -/
theorem simtagger_C5_counterexample :
    "egll".data ∈ slugDeclTokens "a-klax-egll-b".data ∧
    find_icaos_in_entry "" "" "a-klax-egll-b" = ["KLAX"] ∧
    "EGLL" ∉ find_icaos_in_entry "" "" "a-klax-egll-b" := by
  refine ⟨by decide, rfl, by decide⟩

/-- C5 (amended): a labelled `ICAO:`-token in the description wins outright,
and the result is exactly that token uppercased.  Otherwise the result is the
sorted deduplicated union of ALL word-bounded 4-letter alphabetic tokens of
the title with the 4-letter tokens of the URL slug found by the source's
non-overlapping scan — each of which is delimiter-bounded, though not every
delimiter-bounded slug token is found, because a match consumes its trailing
delimiter. -/
theorem simtagger_C5 (title desc page_url : String) :
    (∀ g, icaoDescSearch desc.data = some g →
      find_icaos_in_entry title desc page_url = [String.mk (g.map Char.toUpper)]) ∧
    (icaoDescSearch desc.data = none →
      find_icaos_in_entry title desc page_url =
        sortStrings (((anyIcaoDecl false title.data).map
            (fun g => String.mk (g.map Char.toUpper)) ++
          (slugTokens page_url.data).map
            (fun g => String.mk (g.map Char.toUpper))).eraseDups) ∧
      ∀ g ∈ slugTokens page_url.data, g ∈ slugDeclTokens page_url.data) := by
  constructor
  · intro g hg
    unfold find_icaos_in_entry
    rw [hg]
  · intro hn
    refine ⟨?_, slugTokens_sound page_url.data⟩
    unfold find_icaos_in_entry
    rw [hn]
    show sortStrings
        (((anyIcaoScan false title.data).map (fun g => String.mk (g.map Char.toUpper)) ++
          (slugTokens page_url.data).map (fun g => String.mk (g.map Char.toUpper))).eraseDups) =
      _
    rw [anyIcaoScan_decl]

/-- Witness for C5: a labelled description token overrides conflicting title
tokens; without a label, title and slug tokens are united and sorted. -/
theorem simtagger_C5_witness :
    find_icaos_in_entry "Big EGLL Scenery" "see ICAO: klax today" "zzzz" = ["KLAX"] ∧
    find_icaos_in_entry "Big EGLL Scenery" "" "a-klax-b" = ["EGLL", "KLAX"] := by
  constructor
  · exact ((simtagger_C5 "Big EGLL Scenery" "see ICAO: klax today" "zzzz").1
      "klax".data (by rfl)).trans (by rfl)
  · exact (((simtagger_C5 "Big EGLL Scenery" "" "a-klax-b").2 (by rfl)).1).trans (by rfl)

end Simtagger
